import Mathlib

/-!
Verification of the TAMARA PLC tool interface
(`7_Tamara_Agent/plc_tool.py`).

The development shallowly embeds the module's data model and operations:

* the in-memory simulator `_SimClient` (a byte region modelled as `List ℕ`,
  each element one byte value);
* the wire codec used by `PLCInterface._write_real` / `_read_real`
  (`struct.pack('>f', ·)`, i.e. IEEE-754 binary32 with round-to-nearest,
  ties-to-even, modelled exactly over `ℚ`),
  `_write_int` / `_read_int` (`struct.pack('>h', ·)`, big-endian two's
  complement) and `_write_string` / `_read_string` (S7 string layout);
* the whitelisted tag table `DB_CONFIG`, keeping the source's convention of
  encoding bit offsets in the fractional part of a *float* start address
  (the float is embedded as the exact rational value of the IEEE-754 double);
* `PLCTransaction` (queue, commit with verify and rollback) and the command
  operations `pulse_cmd` / `clear_all_cmd_bits`.

Python exceptions are modelled by an error type whose constructors carry the
values interpolated into the corresponding `raise` message; effectful methods
run in `ExceptT Err (StateM St)`, so state mutations performed before an
exception survive it, exactly as in Python.

Concrete runs of the embedded operations are settled by kernel evaluation
(`decide`); the reducibility adjustments below only re-enable unfolding of
the arithmetic on `ℚ` during elaboration and do not affect soundness.
-/

set_option allowUnsafeReducibility true
attribute [local semireducible] Rat.add Rat.sub Rat.mul Rat.div Rat.inv Rat.neg
set_option maxRecDepth 100000

deriving instance DecidableEq for Except

namespace PlcTool

/-! ## Round-to-nearest, ties-to-even on ℚ (the IEEE-754 default used by
`struct.pack('>f', ·)`). -/

def roundEven (x : ℚ) : ℤ :=
  let f := ⌊x⌋
  if x - f < 1/2 then f
  else if 1/2 < x - f then f + 1
  else if f % 2 = 0 then f else f + 1

theorem abs_roundEven_sub (x : ℚ) : |(roundEven x : ℚ) - x| ≤ 1/2 := by
  unfold roundEven
  have h0 : (0 : ℚ) ≤ x - ⌊x⌋ := by
    have := Int.floor_le x; linarith
  have h1 : x - ⌊x⌋ < 1 := by
    have := Int.lt_floor_add_one x; linarith
  by_cases hc : x - ⌊x⌋ < 1/2
  · simp only [hc, if_true]
    rw [abs_le]; constructor <;> linarith
  · by_cases hc2 : 1/2 < x - ⌊x⌋
    · simp only [hc, hc2, if_false, if_true]
      rw [abs_le]; push_cast; constructor <;> linarith
    · have heq : x - ⌊x⌋ = 1/2 := le_antisymm (not_lt.mp hc2) (not_lt.mp hc)
      by_cases hp : ⌊x⌋ % 2 = 0 <;>
        simp only [hc, hc2, hp, if_false, if_true] <;>
        rw [abs_le] <;> push_cast <;> constructor <;> linarith

theorem roundEven_nonneg (x : ℚ) (hx : 0 ≤ x) : 0 ≤ roundEven x := by
  have h := Int.floor_nonneg.mpr hx
  simp only [roundEven]
  split_ifs <;> omega

/-! ## Byte packing for a 32-bit big-endian word. -/

def bytesOfWord (n : ℕ) : List ℕ :=
  [n / 2^24 % 256, n / 2^16 % 256, n / 2^8 % 256, n % 256]

def wordOfBytes (l : List ℕ) : ℕ :=
  l.getD 0 0 * 2^24 + l.getD 1 0 * 2^16 + l.getD 2 0 * 2^8 + l.getD 3 0

theorem wordOfBytes_bytesOfWord (n : ℕ) (h : n < 2^32) :
    wordOfBytes (bytesOfWord n) = n := by
  simp only [bytesOfWord, wordOfBytes, List.getD_cons_zero, List.getD_cons_succ]
  omega

theorem bytesOfWord_length (n : ℕ) : (bytesOfWord n).length = 4 := rfl

/-! ## The REAL codec: `struct.pack('>f', v)` / `struct.unpack('>f', b)`.

`expCount a` computes `e + 126` for the binary exponent `e` of `a`
(clamped to the binary32 exponent range): it counts how many of the
candidate thresholds `2^(k-125)`, `k < 255`, the value reaches.  For a
positive rational the test `2^(k-125) ≤ a` is equivalent to the pure
natural-number comparison `a.den * 2^k ≤ a.num.toNat * 2^125`, which is the
form used so that the definition evaluates by kernel reduction. -/

def expCount (a : ℚ) : ℕ :=
  ((List.range 255).filter (fun (k : ℕ) => a.den * 2^k ≤ a.num.toNat * 2^125)).length

/-- The 32-bit word packed by `struct.pack('>f', q)`: sign, biased exponent
and mantissa of the nearest (ties-to-even) binary32 value; `none` models the
`OverflowError` raised when the value does not fit. -/
def mkBits (q : ℚ) : Option ℕ :=
  if q = 0 then some 0 else
  let s : ℕ := if q < 0 then 1 else 0
  let a := |q|
  let c := expCount a
  let t : ℤ := (c : ℤ) - 149
  let m := roundEven (a / (2:ℚ)^t)
  let word := c * 2^23 + m.toNat
  if 255 * 2^23 ≤ word then none else some (s * 2^31 + word)

def encodeReal (q : ℚ) : Option (List ℕ) :=
  (mkBits q).map bytesOfWord

/-- `struct.unpack('>f', b)`: `none` models a non-finite result
(infinity/NaN, biased exponent 255), which cannot arise from the values the
tool writes. -/
def decodeReal (l : List ℕ) : Option ℚ :=
  let n : ℕ := wordOfBytes l
  let s : ℕ := n / 2^31
  let e : ℕ := n / 2^23 % 256
  let f : ℕ := n % 2^23
  if e = 255 then none
  else some ((if s = 1 then (-1 : ℚ) else 1) *
    (if e = 0 then (f : ℚ) * (2:ℚ)^(-(149 : ℤ))
     else ((2^23 + f : ℕ) : ℚ) * (2:ℚ)^((e : ℤ) - 150)))

/-! ## The INT codec: `struct.pack('>h', v)` / `struct.unpack('>h', b)`. -/

/-- `struct.pack('>h', v)`: two bytes, big-endian two's complement; `none`
models `struct.error` for values outside `[-32768, 32767]`. -/
def encodeInt (v : ℤ) : Option (List ℕ) :=
  if v < -32768 ∨ 32767 < v then none
  else
    let n := (v % 65536).toNat
    some [n / 256, n % 256]

def decodeInt (l : List ℕ) : ℤ :=
  let n : ℕ := l.getD 0 0 % 256 * 256 + l.getD 1 0 % 256
  if 32768 ≤ n then (n : ℤ) - 65536 else (n : ℤ)

theorem decodeInt_encodeInt (v : ℤ) (h : -32768 ≤ v ∧ v ≤ 32767) :
    ∀ l, encodeInt v = some l → decodeInt l = v := by
  intro l hl
  unfold encodeInt at hl
  rw [if_neg (by omega)] at hl
  obtain ⟨h1, h2⟩ := h
  have hmod : ((v % 65536).toNat : ℤ) = v % 65536 :=
    Int.toNat_of_nonneg (Int.emod_nonneg v (by norm_num))
  cases hl
  simp only [decodeInt, List.getD_cons_zero, List.getD_cons_succ]
  split <;> omega

/-! ## The in-memory simulator `_SimClient`.

The DB9 byte region is a `List ℕ` (each element one byte).  The source pads
on-demand growth with `b'\\x00'` — in Python that string literal is the
four ASCII characters backslash, `x`, `0`, `0`, i.e. the bytes
`[92, 120, 48, 48]`, not a single zero byte; the embedding reproduces this
exactly.  Each primitive also records a trace event, so that statements
about which reads and writes a high-level operation performs are expressible. -/

inductive Ev
  | wspan (start size : ℕ)
  | rspan (start size : ℕ)
  | wbit (byteOff bitOff : ℕ) (v : Bool)
  | rbit (byteOff bitOff : ℕ)
deriving DecidableEq, Repr

def simPattern : List ℕ := [92, 120, 48, 48]

/-- `b'\\x00' * n`: the 4-byte pattern repeated `n` times. -/
def patRep (n : ℕ) : List ℕ := (List.replicate n simPattern).flatten

structure St where
  db : List ℕ
  trace : List Ev
deriving DecidableEq, Repr

/-- `_SimClient.__init__`: `self._db = bytearray(219)`. -/
def initSt : St := ⟨List.replicate 219 0, []⟩

/-- `self._db.extend(b'\\x00' * (endPos - len(self._db)))` guarded by
`endPos > len(self._db)` — the on-demand growth step shared by all four
`_SimClient` primitives (`db_write_bit`/`db_read_bit` call it with
`endPos = byte_offset + 1`, matching their `byte_offset - len + 1` count). -/
def growTo (db : List ℕ) (endPos : ℕ) : List ℕ :=
  if db.length < endPos then db ++ patRep (endPos - db.length) else db

/-- `_SimClient.db_write` (the `db_number == 9` path). -/
def dbWriteSim (s : St) (start : ℕ) (data : List ℕ) : St :=
  let endPos := start + data.length
  let db1 := growTo s.db endPos
  { db := db1.take start ++ data ++ db1.drop endPos,
    trace := s.trace ++ [.wspan start data.length] }

/-- `_SimClient.db_read` (the `db_number == 9` path). -/
def dbReadSim (s : St) (start size : ℕ) : List ℕ × St :=
  let db1 := growTo s.db (start + size)
  ((db1.drop start).take size, { db := db1, trace := s.trace ++ [.rspan start size] })

/-- Python's `cur & ~(1 << j)` on a nonnegative arbitrary-precision int. -/
def clearBit (cur j : ℕ) : ℕ := Nat.ldiff cur (2^j)

/-- `_SimClient.db_write_bit` (the `db_number == 9` path). -/
def dbWriteBitSim (s : St) (byteOff bitOff : ℕ) (v : Bool) : St :=
  let db1 := growTo s.db (byteOff + 1)
  let cur := db1.getD byteOff 0
  let nb := if v then cur ||| 2^bitOff else clearBit cur bitOff
  { db := db1.set byteOff nb, trace := s.trace ++ [.wbit byteOff bitOff v] }

/-- `_SimClient.db_read_bit` (the `db_number == 9` path). -/
def dbReadBitSim (s : St) (byteOff bitOff : ℕ) : Bool × St :=
  let db1 := growTo s.db (byteOff + 1)
  ((db1.getD byteOff 0).testBit bitOff, { db := db1, trace := s.trace ++ [.rbit byteOff bitOff] })

/-- The duck-typed client interface (`self.client`): raw byte/bit access. -/
structure Transport where
  dbWrite : St → ℕ → List ℕ → St
  dbRead : St → ℕ → ℕ → List ℕ × St
  dbWriteBit : St → ℕ → ℕ → Bool → St
  dbReadBit : St → ℕ → ℕ → Bool × St

/-- The `_SimClient` transport. -/
def simClient : Transport := ⟨dbWriteSim, dbReadSim, dbWriteBitSim, dbReadBitSim⟩

/-! ### Observable byte values.

Every on-demand extension appends a whole number of 4-byte pattern copies, so
the region length stays `≡ 3 (mod 4)` and the value any index would read is
stable under extension: `obsByte` gives that value. -/

def obsByte (db : List ℕ) (i : ℕ) : ℕ :=
  if i < db.length then db.getD i 0 else simPattern.getD ((i - db.length) % 4) 0

def obsBit (db : List ℕ) (i j : ℕ) : Bool := (obsByte db i).testBit j

theorem patRep_succ (n : ℕ) : patRep (n+1) = simPattern ++ patRep n := by
  simp [patRep, List.replicate_succ]

theorem patRep_length (n : ℕ) : (patRep n).length = 4 * n := by
  induction n with
  | zero => rfl
  | succ k ih => rw [patRep_succ]; simp [ih, simPattern]; ring

theorem patRep_getD (n i : ℕ) (h : i < 4 * n) :
    (patRep n).getD i 0 = simPattern.getD (i % 4) 0 := by
  induction n generalizing i with
  | zero => omega
  | succ k ih =>
    rw [patRep_succ]
    by_cases hi : i < 4
    · rw [Nat.mod_eq_of_lt hi]
      rw [List.getD_append _ _ _ _ (by simp [simPattern]; omega)]
    · rw [List.getD_append_right _ _ _ _ (by simp [simPattern]; omega)]
      have : (i - simPattern.length) % 4 = i % 4 := by
        simp only [simPattern, List.length_cons, List.length_nil]
        omega
      rw [← this]
      exact ih (i - simPattern.length) (by simp [simPattern]; omega)

theorem growTo_length_ge (db : List ℕ) (e : ℕ) :
    e ≤ (growTo db e).length ∧ db.length ≤ (growTo db e).length := by
  unfold growTo
  split <;> simp [patRep_length] <;> omega

theorem growTo_length_mod (db : List ℕ) (e : ℕ) :
    (growTo db e).length % 4 = db.length % 4 := by
  unfold growTo
  split
  · simp only [List.length_append, patRep_length]
    omega
  · rfl

theorem obsByte_append_patRep (db : List ℕ) (n i : ℕ) :
    obsByte (db ++ patRep n) i = obsByte db i := by
  have hlen : (db ++ patRep n).length = db.length + 4 * n := by
    simp [patRep_length]
  unfold obsByte
  by_cases h1 : i < db.length
  · rw [if_pos (by rw [hlen]; omega), if_pos h1, List.getD_append _ _ _ _ h1]
  · by_cases h2 : i < db.length + 4 * n
    · rw [if_pos (by rw [hlen]; omega), if_neg h1,
        List.getD_append_right _ _ _ _ (by omega), patRep_getD n _ (by omega)]
    · rw [if_neg (by rw [hlen]; omega), if_neg h1, hlen]
      congr 1
      omega

theorem obsByte_growTo (db : List ℕ) (e i : ℕ) :
    obsByte (growTo db e) i = obsByte db i := by
  unfold growTo
  split
  · exact obsByte_append_patRep db _ i
  · rfl

theorem growTo_getD (db : List ℕ) (e i : ℕ) (h : i < (growTo db e).length) :
    (growTo db e).getD i 0 = obsByte db i := by
  have := obsByte_growTo db e i
  rw [obsByte, if_pos h] at this
  exact this

theorem obsByte_set_ne (db : List ℕ) (b x i : ℕ) (h : i ≠ b) :
    obsByte (db.set b x) i = obsByte db i := by
  unfold obsByte
  rw [List.length_set]
  split
  · rw [List.getD_eq_getD_get?, List.getD_eq_getD_get?]
    rw [List.get?_eq_getElem?, List.get?_eq_getElem?, List.getElem?_set_ne (by omega)]
  · rfl

theorem obsByte_set_self (db : List ℕ) (b x : ℕ) (h : b < db.length) :
    obsByte (db.set b x) b = x := by
  unfold obsByte
  rw [List.length_set, if_pos h]
  rw [List.getD_eq_getD_get?, List.get?_eq_getElem?, List.getElem?_set_self' ]
  simp [List.getElem?_eq_getElem h]

/-! Frame and access lemmas for the four primitives, phrased via `obsByte`. -/

theorem obsByte_splice (db1 data : List ℕ) (start i : ℕ)
    (hend : start + data.length ≤ db1.length) :
    obsByte (db1.take start ++ data ++ db1.drop (start + data.length)) i =
      if start ≤ i ∧ i < start + data.length then data.getD (i - start) 0
      else obsByte db1 i := by
  have hstart : start ≤ db1.length := by omega
  have htake : (db1.take start).length = start := by
    simp [List.length_take]; omega
  have hlen2 : (db1.take start ++ data ++ db1.drop (start + data.length)).length
      = db1.length := by
    simp [List.length_take, List.length_drop]
    omega
  by_cases h1 : i < start
  · rw [if_neg (by omega)]
    unfold obsByte
    rw [hlen2, if_pos (by omega), if_pos (by omega)]
    rw [List.append_assoc, List.getD_append _ _ _ _ (by omega)]
    rw [List.getD_eq_getD_get?, List.getD_eq_getD_get?,
      List.get?_eq_getElem?, List.get?_eq_getElem?,
      List.getElem?_take_of_lt (by omega)]
  · by_cases h2 : i < start + data.length
    · rw [if_pos ⟨by omega, h2⟩]
      unfold obsByte
      rw [hlen2, if_pos (by omega)]
      rw [List.append_assoc, List.getD_append_right _ _ _ _ (by omega)]
      rw [List.getD_append _ _ _ _ (by rw [htake]; omega)]
      rw [htake]
    · rw [if_neg (by omega)]
      unfold obsByte
      rw [hlen2]
      have hlen3 : (db1.take start ++ data).length = start + data.length := by
        simp only [List.length_append, htake]
      by_cases h3 : i < db1.length
      · rw [if_pos h3, if_pos h3]
        rw [List.getD_append_right _ _ _ _ (by rw [hlen3]; omega)]
        rw [List.getD_eq_getD_get?, List.getD_eq_getD_get?,
          List.get?_eq_getElem?, List.get?_eq_getElem?, List.getElem?_drop]
        rw [show start + data.length + (i - (db1.take start ++ data).length) = i from
          by rw [hlen3]; omega]
      · rw [if_neg h3, if_neg h3]

theorem dbWriteSim_db_eq (s : St) (start : ℕ) (data : List ℕ) :
    (dbWriteSim s start data).db =
      (growTo s.db (start + data.length)).take start ++ data ++
        (growTo s.db (start + data.length)).drop (start + data.length) := rfl

theorem dbWriteSim_obsByte (s : St) (start : ℕ) (data : List ℕ) (i : ℕ) :
    obsByte (dbWriteSim s start data).db i =
      if start ≤ i ∧ i < start + data.length then data.getD (i - start) 0
      else obsByte s.db i := by
  rw [dbWriteSim_db_eq]
  rw [obsByte_splice _ _ _ _ (growTo_length_ge s.db (start + data.length)).1]
  rw [obsByte_growTo]

theorem dbWriteSim_obsByte_out (s : St) (start : ℕ) (data : List ℕ) (i : ℕ)
    (h : i < start ∨ start + data.length ≤ i) :
    obsByte (dbWriteSim s start data).db i = obsByte s.db i := by
  rw [dbWriteSim_obsByte, if_neg (by omega)]

theorem dbWriteSim_obsByte_in (s : St) (start : ℕ) (data : List ℕ) (i : ℕ)
    (h1 : start ≤ i) (h2 : i < start + data.length) :
    obsByte (dbWriteSim s start data).db i = data.getD (i - start) 0 := by
  rw [dbWriteSim_obsByte, if_pos ⟨h1, h2⟩]

theorem dbWriteSim_db_length_mod (s : St) (start : ℕ) (data : List ℕ) :
    (dbWriteSim s start data).db.length % 4 = s.db.length % 4 := by
  rw [dbWriteSim_db_eq]
  have hlen := growTo_length_ge s.db (start + data.length)
  have hmod := growTo_length_mod s.db (start + data.length)
  simp only [List.length_append, List.length_take, List.length_drop]
  omega

theorem dbReadSim_fst (s : St) (start size : ℕ) :
    (dbReadSim s start size).fst = (List.range size).map (fun k => obsByte s.db (start + k)) := by
  unfold dbReadSim
  set db1 := growTo s.db (start + size) with hdb1
  have hlen := growTo_length_ge s.db (start + size)
  rw [← hdb1] at hlen
  apply List.ext_getElem
  · simp [List.length_take, List.length_drop]; omega
  · intro k hk hk2
    have hk3 : k < size := by simpa using hk2
    rw [List.getElem_take, List.getElem_drop, List.getElem_map, List.getElem_range]
    have : db1[start + k] = db1.getD (start + k) 0 := by
      rw [List.getD_eq_getD_get?, List.get?_eq_getElem?, List.getElem?_eq_getElem (by omega)]
      rfl
    rw [this, hdb1, growTo_getD _ _ _ (by rw [← hdb1]; omega)]

theorem dbReadSim_snd_obsByte (s : St) (start size i : ℕ) :
    obsByte (dbReadSim s start size).snd.db i = obsByte s.db i := by
  unfold dbReadSim
  exact obsByte_growTo _ _ _

theorem dbReadSim_snd_length_mod (s : St) (start size : ℕ) :
    (dbReadSim s start size).snd.db.length % 4 = s.db.length % 4 := by
  unfold dbReadSim
  exact growTo_length_mod _ _

theorem dbWriteBitSim_obsBit_same (s : St) (b j : ℕ) (v : Bool) :
    obsBit (dbWriteBitSim s b j v).db b j = v := by
  unfold dbWriteBitSim obsBit
  set db1 := growTo s.db (b + 1) with hdb1
  have hlen := growTo_length_ge s.db (b + 1)
  rw [← hdb1] at hlen
  rw [obsByte_set_self _ _ _ (by omega)]
  cases v
  · simp [clearBit, Nat.testBit_ldiff, Nat.testBit_two_pow_self]
  · simp [Nat.testBit_lor, Nat.testBit_two_pow_self]

theorem dbWriteBitSim_obsBit_other (s : St) (b j : ℕ) (v : Bool) (i k : ℕ)
    (h : ¬(i = b ∧ k = j)) :
    obsBit (dbWriteBitSim s b j v).db i k = obsBit s.db i k := by
  unfold dbWriteBitSim obsBit
  set db1 := growTo s.db (b + 1) with hdb1
  have hlen := growTo_length_ge s.db (b + 1)
  rw [← hdb1] at hlen
  by_cases hib : i = b
  · subst hib
    have hk : k ≠ j := by tauto
    rw [obsByte_set_self _ _ _ (by omega)]
    have hcur : db1.getD i 0 = obsByte s.db i :=
      growTo_getD s.db (i + 1) i (by rw [← hdb1]; omega)
    rw [hcur]
    cases v
    · simp [clearBit, Nat.testBit_ldiff, Nat.testBit_two_pow_of_ne (Ne.symm hk)]
    · simp [Nat.testBit_lor, Nat.testBit_two_pow_of_ne (Ne.symm hk)]
  · rw [obsByte_set_ne _ _ _ _ hib, hdb1, obsByte_growTo]

theorem dbWriteBitSim_db_length_mod (s : St) (b j : ℕ) (v : Bool) :
    (dbWriteBitSim s b j v).db.length % 4 = s.db.length % 4 := by
  unfold dbWriteBitSim
  rw [List.length_set]
  exact growTo_length_mod _ _

theorem dbReadBitSim_fst (s : St) (b j : ℕ) :
    (dbReadBitSim s b j).fst = obsBit s.db b j := by
  have hlen := growTo_length_ge s.db (b + 1)
  show ((growTo s.db (b + 1)).getD b 0).testBit j = obsBit s.db b j
  rw [growTo_getD s.db (b + 1) b (by omega)]
  rfl

theorem dbReadBitSim_snd_obsByte (s : St) (b j i : ℕ) :
    obsByte (dbReadBitSim s b j).snd.db i = obsByte s.db i := by
  unfold dbReadBitSim
  exact obsByte_growTo _ _ _

theorem dbReadBitSim_snd_length_mod (s : St) (b j : ℕ) :
    (dbReadBitSim s b j).snd.db.length % 4 = s.db.length % 4 := by
  unfold dbReadBitSim
  exact growTo_length_mod _ _

/-! ## The whitelisted tag table `DB_CONFIG`.

BOOL tags keep the source's convention of a *float* start address whose
fractional part encodes the bit offset (e.g. `258.1`).  Each such float is
embedded as the exact rational value of the IEEE-754 double the Python
literal denotes; the byte and bit offsets are recovered exactly as the
source does, by `int(start)` and `int((start % 1) * 10)` (for these
positive values both truncations are floors, and `start % 1` and the
product by 10 are exact in double arithmetic). -/

inductive TagKind
  | INT | REAL | BOOL | STRING
deriving DecidableEq, Repr

structure Cfg where
  start : ℚ
  ty : TagKind
  strLen : Option ℕ := none
deriving DecidableEq, Repr

def OPERATION : List (String × Cfg) := [
  ("OPERATION_MODE", ⟨198, .INT, none⟩),
  ("MACHINE_MODE", ⟨200, .INT, none⟩),
  ("CRUNCH_VALID", ⟨202, .BOOL, none⟩)]

def INPUTS : List (String × Cfg) := [
  ("r_TFR", ⟨204, .REAL, none⟩),
  ("i_FRR", ⟨208, .INT, none⟩),
  ("r_TARGET_VOLUME", ⟨210, .REAL, none⟩),
  ("r_TEMPERATURE", ⟨214, .REAL, none⟩),
  ("i_CHIP_ID", ⟨218, .INT, none⟩),
  ("i_MANIFOLD_ID", ⟨220, .INT, none⟩),
  ("i_ORG_SOLVENT_ID", ⟨222, .INT, none⟩),
  ("s_CUSTOM_ORG_SOLVENT", ⟨224, .STRING, some 16⟩),
  ("r_LAB_PRESSURE", ⟨242, .REAL, none⟩)]

def CUSTOM_SOLVENT : List (String × Cfg) := [
  ("r_VISCOSITY", ⟨246, .REAL, none⟩),
  ("r_SENSITIVITY", ⟨250, .REAL, none⟩),
  ("r_MOLAR_VOLUME", ⟨254, .REAL, none⟩)]

def COMMANDS_RUN : List (String × Cfg) := [
  ("b_START", ⟨258, .BOOL, none⟩),
  ("b_PAUSE_PLAY", ⟨(2270271609031885 : ℚ)/8796093022208, .BOOL, none⟩),
  ("b_CONFIRM", ⟨(4542302436668211 : ℚ)/17592186044416, .BOOL, none⟩),
  ("b_STOP", ⟨(4544061655272653 : ℚ)/17592186044416, .BOOL, none⟩)]

def COMMANDS_CLEAN : List (String × Cfg) := [
  ("b_START", ⟨260, .BOOL, none⟩),
  ("b_PAUSE_PLAY", ⟨(2287863795076301 : ℚ)/8796093022208, .BOOL, none⟩),
  ("b_CONFIRM", ⟨(4577486808757043 : ℚ)/17592186044416, .BOOL, none⟩),
  ("b_STOP", ⟨(4579246027361485 : ℚ)/17592186044416, .BOOL, none⟩)]

def COMMANDS_PRESSURE_TEST : List (String × Cfg) := [
  ("b_START", ⟨262, .BOOL, none⟩),
  ("b_PAUSE_PLAY", ⟨(2305455981120717 : ℚ)/8796093022208, .BOOL, none⟩),
  ("b_CONFIRM", ⟨(4612671180845875 : ℚ)/17592186044416, .BOOL, none⟩),
  ("b_STOP", ⟨(4614430399450317 : ℚ)/17592186044416, .BOOL, none⟩)]

def DB_CONFIG : List (String × List (String × Cfg)) := [
  ("OPERATION", OPERATION),
  ("INPUTS", INPUTS),
  ("CUSTOM_SOLVENT", CUSTOM_SOLVENT),
  ("COMMANDS_RUN", COMMANDS_RUN),
  ("COMMANDS_CLEAN", COMMANDS_CLEAN),
  ("COMMANDS_PRESSURE_TEST", COMMANDS_PRESSURE_TEST)]

/-- `int(cfg['start'])`. -/
def byteOffset (cfg : Cfg) : ℕ := (⌊cfg.start⌋).toNat

/-- `int((cfg['start'] % 1) * 10)`. -/
def bitOffset (cfg : Cfg) : ℕ := (⌊(cfg.start - ⌊cfg.start⌋) * 10⌋).toNat

/-- `for s in sections: if tag in DB_CONFIG[s]: ...` — first section containing
the tag wins. -/
def findCfg (sections : List String) (tag : String) : Option Cfg :=
  sections.findSome? (fun sec =>
    (DB_CONFIG.lookup sec).bind (fun entries => entries.lookup tag))

/-! ## Errors.

Each constructor corresponds to one `raise` site and carries exactly the
values interpolated into the raised message. -/

/-- Entries of the `errors` list collected by `PLCTransaction.commit`:
`f"Verification failed for {tag}: expected {expected}, got {actual}"`. -/
inductive VErr
  | real (tag : String) (expected actual : ℚ)
  | int (tag : String) (expected actual : ℤ)
  | bool (tag : String) (expected actual : Bool)
  | str (tag : String) (expected actual : String)
deriving DecidableEq, Repr

/-- Entries of the `rollback_errors` list collected by
`PLCTransaction.commit`: `notNeutral tag` models
`f"Failed to rollback {tag} to <neutral>"`, `exc tag` models
`f"Error during rollback of {tag}: {e}"`. -/
inductive RbErr
  | notNeutral (tag : String)
  | exc (tag : String)
deriving DecidableEq, Repr

inductive Err
  /-- `ValueError(f"Unknown tag: {tag}")`. -/
  | unknownTag (tag : String)
  /-- `ValueError(f"Tag {tag} is not a STRING")`. -/
  | notString (tag : String)
  /-- `ValueError(f"String '{value}' exceeds max length {max_len}")`. -/
  | strTooLong (value : String) (maxLen : ℕ)
  /-- `struct.error` from `struct.pack('>h', v)` outside `[-32768, 32767]`. -/
  | intRange (value : ℤ)
  /-- `OverflowError` from `struct.pack('>f', v)`. -/
  | realOverflow (value : ℚ)
  /-- `struct.unpack('>f', b)` produced a non-finite value (mantissa field 255). -/
  | realNonFinite (tag : String)
  /-- `bytearray` item assignment out of `0..255`. -/
  | byteRange (value : ℕ)
  /-- `UnicodeDecodeError` from `bytes.decode('utf-8')`. -/
  | strDecode (tag : String)
  /-- `ValueError("Transaction verification failed:\n" + ...)`. -/
  | verify (errors : List VErr)
  /-- `ValueError(f"Transaction failed and rolled back successfully: {e}")`. -/
  | txRolledBack (orig : Err)
  /-- `ValueError(f"Transaction failed: {e}\nRollback errors:\n" + ...)`. -/
  | txRollbackFailed (orig : Err) (rollback : List RbErr)
  /-- `ValueError(f"Failed to set {target_tag} to {value}")` in `pulse_cmd`. -/
  | cmdVerify (tag : String) (value : Bool)
  /-- `ValueError(f"Failed to clear {tag}")` in `clear_all_cmd_bits`. -/
  | clearVerify (tag : String)
  /-- `ValueError("Custom solvent parameters required when org_solvent_id is CUSTOM")`. -/
  | customSolventMissing
deriving DecidableEq, Repr

/-! ## The effect monad.

Methods of `PLCInterface` mutate `self.client` state and may raise; state
changes made before an exception survive it, so the embedding uses
`ExceptT Err (StateM St)` (state is threaded through errors). -/

abbrev M (α : Type) := ExceptT Err (StateM St) α

def runM {α : Type} (x : M α) (s : St) : Except Err α × St := (x.run).run s

def liftRead {α : Type} (f : St → α × St) : M α := do
  let s ← get
  let p := f s
  set p.2
  pure p.1

/-- The exact rational value of the Python double literal `1e-6` used in the
verification tolerance comparisons. -/
def TOL : ℚ := 4722366482869645 / 4722366482869645213696

/-! ### `PLCInterface._write_real` / `_read_real` (simulator transport:
`struct.pack('>f', v)` / `struct.unpack('>f', b)`, big-endian). -/

def writeReal (T : Transport) (tag : String) (value : ℚ) : M Unit := do
  match findCfg ["OPERATION", "INPUTS", "CUSTOM_SOLVENT"] tag with
  | none => throw (Err.unknownTag tag)
  | some cfg =>
    match encodeReal value with
    | none => throw (Err.realOverflow value)
    | some data => modify (fun s => T.dbWrite s (byteOffset cfg) data)

def readReal (T : Transport) (tag : String) : M ℚ := do
  match findCfg ["OPERATION", "INPUTS", "CUSTOM_SOLVENT"] tag with
  | none => throw (Err.unknownTag tag)
  | some cfg => do
    let result ← liftRead (fun s => T.dbRead s (byteOffset cfg) 4)
    match decodeReal result with
    | some v => pure v
    | none => throw (Err.realNonFinite tag)

/-! ### `PLCInterface._write_int` / `_read_int` (`struct.pack('>h', v)`). -/

def writeInt (T : Transport) (tag : String) (value : ℤ) : M Unit := do
  match findCfg ["OPERATION", "INPUTS"] tag with
  | none => throw (Err.unknownTag tag)
  | some cfg =>
    match encodeInt value with
    | none => throw (Err.intRange value)
    | some data => modify (fun s => T.dbWrite s (byteOffset cfg) data)

def readInt (T : Transport) (tag : String) : M ℤ := do
  match findCfg ["OPERATION", "INPUTS"] tag with
  | none => throw (Err.unknownTag tag)
  | some cfg => do
    let result ← liftRead (fun s => T.dbRead s (byteOffset cfg) 2)
    pure (decodeInt result)

/-! ### `PLCInterface._write_bool` / `_read_bool` (simulator branch:
`db_write_bit` / `db_read_bit`). -/

/-- Tag resolution in `_write_bool`/`_read_bool`: `'SECTION.subtag'` or a
direct lookup over the four BOOL-bearing sections. -/
def resolveBoolTag (tag : String) : Option Cfg :=
  if tag.toList.contains '.' then
    match (tag.toList.splitOn '.').map (fun cs => String.mk cs) with
    | [sec, sub] => (DB_CONFIG.lookup sec).bind (fun entries => entries.lookup sub)
    | _ => none
  else
    findCfg ["OPERATION", "COMMANDS_RUN", "COMMANDS_CLEAN", "COMMANDS_PRESSURE_TEST"] tag

def writeBool (T : Transport) (tag : String) (value : Bool) : M Unit := do
  match resolveBoolTag tag with
  | none => throw (Err.unknownTag tag)
  | some cfg =>
    modify (fun s => T.dbWriteBit s (byteOffset cfg) (bitOffset cfg) value)

def readBool (T : Transport) (tag : String) : M Bool := do
  match resolveBoolTag tag with
  | none => throw (Err.unknownTag tag)
  | some cfg =>
    liftRead (fun s => T.dbReadBit s (byteOffset cfg) (bitOffset cfg))

/-! ### `PLCInterface._write_string` / `_read_string` (S7 string layout).

UTF-8 encoding and (strict) decoding are spelled out over `List ℕ` so that
they evaluate by kernel reduction; they implement exactly
`str.encode('utf-8')` and `bytes.decode('utf-8')` (the strict decoder
rejects malformed, truncated, overlong and surrogate sequences). -/

/-- UTF-8 bytes of one Unicode scalar value. -/
def utf8EncodeCharNat (c : Char) : List ℕ :=
  let n := c.toNat
  if n < 0x80 then [n]
  else if n < 0x800 then [0xC0 + n / 64, 0x80 + n % 64]
  else if n < 0x10000 then [0xE0 + n / 4096, 0x80 + n / 64 % 64, 0x80 + n % 64]
  else [0xF0 + n / 262144, 0x80 + n / 4096 % 64, 0x80 + n / 64 % 64, 0x80 + n % 64]

/-- `value.encode('utf-8')`. -/
def utf8Bytes (s : String) : List ℕ := (s.toList.map utf8EncodeCharNat).flatten

/-- Is `b` a UTF-8 continuation byte? -/
def isCont (b : ℕ) : Bool := 0x80 ≤ b ∧ b < 0xC0

/-- Strict UTF-8 decoding loop (fuel-driven so it evaluates by kernel
reduction); `none` models `UnicodeDecodeError`. -/
def utf8DecodeGo : ℕ → List ℕ → Option (List Char)
  | _, [] => some []
  | 0, _ :: _ => none
  | fuel + 1, b :: rest =>
    if b < 0x80 then
      (utf8DecodeGo fuel rest).map (fun cs => Char.ofNat b :: cs)
    else if 0xC2 ≤ b ∧ b ≤ 0xDF then
      match rest with
      | b1 :: rest1 =>
        if isCont b1 then
          (utf8DecodeGo fuel rest1).map
            (fun cs => Char.ofNat ((b - 0xC0) * 64 + (b1 - 0x80)) :: cs)
        else none
      | [] => none
    else if 0xE0 ≤ b ∧ b ≤ 0xEF then
      match rest with
      | b1 :: b2 :: rest2 =>
        let n := (b - 0xE0) * 4096 + (b1 - 0x80) * 64 + (b2 - 0x80)
        if isCont b1 ∧ isCont b2 ∧ 0x800 ≤ n ∧ ¬(0xD800 ≤ n ∧ n ≤ 0xDFFF) then
          (utf8DecodeGo fuel rest2).map (fun cs => Char.ofNat n :: cs)
        else none
      | _ => none
    else if 0xF0 ≤ b ∧ b ≤ 0xF4 then
      match rest with
      | b1 :: b2 :: b3 :: rest3 =>
        let n := (b - 0xF0) * 262144 + (b1 - 0x80) * 4096 + (b2 - 0x80) * 64 + (b3 - 0x80)
        if isCont b1 ∧ isCont b2 ∧ isCont b3 ∧ 0x10000 ≤ n ∧ n ≤ 0x10FFFF then
          (utf8DecodeGo fuel rest3).map (fun cs => Char.ofNat n :: cs)
        else none
      | _ => none
    else none

/-- `bytes.decode('utf-8')`. -/
def utf8DecodeStr (l : List ℕ) : Option String :=
  (utf8DecodeGo l.length l).map (fun cs => String.mk cs)

/-- The bytearray built by `_write_string`: header `(maxLen, len(value))`
then the UTF-8 bytes spliced over the zero buffer (`bytearray` slice
assignment inserts when the UTF-8 encoding is longer than `len(value)`). -/
def strData (value : String) (maxLen : ℕ) : List ℕ :=
  [maxLen, value.length] ++ utf8Bytes value ++ List.replicate (maxLen - value.length) 0

def writeString (T : Transport) (tag : String) (value : String) (maxLen : ℕ) : M Unit := do
  match (DB_CONFIG.lookup "INPUTS").bind (fun entries => entries.lookup tag) with
  | none => throw (Err.unknownTag tag)
  | some cfg =>
    if cfg.ty ≠ .STRING then throw (Err.notString tag)
    else if maxLen < value.length then throw (Err.strTooLong value maxLen)
    else if 255 < maxLen then throw (Err.byteRange maxLen)
    else modify (fun s => T.dbWrite s (byteOffset cfg) (strData value maxLen))

def readString (T : Transport) (tag : String) : M String := do
  match (DB_CONFIG.lookup "INPUTS").bind (fun entries => entries.lookup tag) with
  | none => throw (Err.unknownTag tag)
  | some cfg =>
    if cfg.ty ≠ .STRING then throw (Err.notString tag)
    else do
      -- header[0] (the stored max length) is read but unused, as in the source
      let header ← liftRead (fun s => T.dbRead s (byteOffset cfg) 2)
      let actualLen := header.getD 1 0
      if 0 < actualLen then do
        let data ← liftRead (fun s => T.dbRead s (byteOffset cfg + 2) actualLen)
        match utf8DecodeStr data with
        | some v => pure v
        | none => throw (Err.strDecode tag)
      else pure ""

/-! ## `PLCTransaction`: queued writes, commit with verify and rollback. -/

/-- One entry of `PLCTransaction.writes`
(`{'type': ..., 'tag': ..., 'value': ..., 'max_len': ...}`). -/
inductive PWrite
  | real (tag : String) (value : ℚ)
  | int (tag : String) (value : ℤ)
  | bool (tag : String) (value : Bool)
  | str (tag : String) (value : String) (maxLen : ℕ)
deriving DecidableEq, Repr

def PWrite.tag : PWrite → String
  | .real t _ => t
  | .int t _ => t
  | .bool t _ => t
  | .str t _ _ => t

structure Tx where
  writes : List PWrite := []
  committed : Bool := false
deriving DecidableEq, Repr

/-- `PLCTransaction.write_real` (queue only, no I/O). -/
def txWriteReal (tx : Tx) (tag : String) (value : ℚ) : Tx :=
  { tx with writes := tx.writes ++ [.real tag value] }

/-- `PLCTransaction.write_int` (queue only, no I/O). -/
def txWriteInt (tx : Tx) (tag : String) (value : ℤ) : Tx :=
  { tx with writes := tx.writes ++ [.int tag value] }

/-- `PLCTransaction.write_bool` (queue only, no I/O). -/
def txWriteBool (tx : Tx) (tag : String) (value : Bool) : Tx :=
  { tx with writes := tx.writes ++ [.bool tag value] }

/-- `PLCTransaction.write_string`: rejects over-length values at queue time;
queue only, no I/O. -/
def txWriteString (tx : Tx) (tag : String) (value : String) (maxLen : ℕ) :
    Except Err Tx :=
  if maxLen < value.length then .error (.strTooLong value maxLen)
  else .ok { tx with writes := tx.writes ++ [.str tag value maxLen] }

/-- One step of commit's first loop (`# Execute all writes`). -/
def doWrite (T : Transport) (w : PWrite) : M Unit :=
  match w with
  | .real tag v => writeReal T tag v
  | .int tag v => writeInt T tag v
  | .bool tag v => writeBool T tag v
  | .str tag v maxLen => writeString T tag v maxLen

def doWrites (T : Transport) : List PWrite → M Unit
  | [] => pure ()
  | w :: rest => do
      doWrite T w
      doWrites T rest

/-- One step of commit's second loop (`# Verify all writes`): the produced
`errors` entries. -/
def verifyWrite (T : Transport) (w : PWrite) : M (List VErr) :=
  match w with
  | .real tag v => do
      let actual ← readReal T tag
      if TOL < |actual - v| then pure [.real tag v actual] else pure []
  | .int tag v => do
      let actual ← readInt T tag
      if actual ≠ v then pure [.int tag v actual] else pure []
  | .bool tag v => do
      let actual ← readBool T tag
      if actual ≠ v then pure [.bool tag v actual] else pure []
  | .str tag v _ => do
      let actual ← readString T tag
      if actual ≠ v then pure [.str tag v actual] else pure []

def verifyWrites (T : Transport) : List PWrite → M (List VErr)
  | [] => pure []
  | w :: rest => do
      let e ← verifyWrite T w
      let es ← verifyWrites T rest
      pure (e ++ es)

/-- The body of the per-write `try` in commit's rollback loop: write the
kind's neutral value and re-verify. -/
def rollbackWrite (T : Transport) (w : PWrite) : M (List RbErr) :=
  match w with
  | .real tag _ => do
      writeReal T tag 0
      let actual ← readReal T tag
      if TOL < |actual| then pure [.notNeutral tag] else pure []
  | .int tag _ => do
      writeInt T tag 0
      let actual ← readInt T tag
      if actual ≠ 0 then pure [.notNeutral tag] else pure []
  | .bool tag _ => do
      writeBool T tag false
      let actual ← readBool T tag
      if actual then pure [.notNeutral tag] else pure []
  | .str tag _ maxLen => do
      writeString T tag "" maxLen
      let actual ← readString T tag
      if actual ≠ "" then pure [.notNeutral tag] else pure []

/-- One rollback-loop iteration: the inner `except` records the failure and
continues. -/
def rollbackStep (T : Transport) (w : PWrite) : M (List RbErr) :=
  tryCatch (rollbackWrite T w) (fun _ => pure [.exc w.tag])

def rollbackAll (T : Transport) : List PWrite → M (List RbErr)
  | [] => pure []
  | w :: rest => do
      let e ← rollbackStep T w
      let es ← rollbackAll T rest
      pure (e ++ es)

/-- `PLCTransaction.commit`. -/
def txCommit (T : Transport) (tx : Tx) : M Tx :=
  if tx.committed then pure tx
  else
    tryCatch
      (do
        doWrites T tx.writes
        let errors ← verifyWrites T tx.writes
        if errors ≠ [] then throw (.verify errors)
        else pure { tx with committed := true })
      (fun e => do
        let rbErrs ← rollbackAll T tx.writes
        if rbErrs ≠ [] then throw (.txRollbackFailed e rbErrs)
        else throw (.txRolledBack e))

/-! ## The command state machine: `pulse_cmd` and `clear_all_cmd_bits`. -/

inductive MachineMode
  | RUN | CLEAN | PRESSURE_TEST
deriving DecidableEq, Repr

inductive ModeCmds
  | START | PAUSE_PLAY | CONFIRM | STOP
deriving DecidableEq, Repr

/-- `mode_map`. -/
@[reducible] def modeKey : MachineMode → String
  | .RUN => "COMMANDS_RUN"
  | .CLEAN => "COMMANDS_CLEAN"
  | .PRESSURE_TEST => "COMMANDS_PRESSURE_TEST"

/-- `cmd_map`. -/
@[reducible] def cmdKey : ModeCmds → String
  | .START => "b_START"
  | .PAUSE_PLAY => "b_PAUSE_PLAY"
  | .CONFIRM => "b_CONFIRM"
  | .STOP => "b_STOP"

/-- `for other_mode in mode_map.values(): if other_mode != mode_key: ...` -/
def clearOtherStarts (T : Transport) : List String → M Unit
  | [] => pure ()
  | mk :: rest => do
      writeBool T (mk ++ ".b_START") false
      clearOtherStarts T rest

/-- `for other_cmd in ['b_START', 'b_PAUSE_PLAY', 'b_CONFIRM']: ...` -/
def clearOwnCmds (T : Transport) (mk : String) : List String → M Unit
  | [] => pure ()
  | ck :: rest => do
      writeBool T (mk ++ "." ++ ck) false
      clearOwnCmds T mk rest

/-- `PLCInterface.pulse_cmd`. -/
def pulseCmd (T : Transport) (mode : MachineMode) (cmd : ModeCmds) (value : Bool) :
    M Unit := do
  let targetTag := modeKey mode ++ "." ++ cmdKey cmd
  if cmd = .START ∧ value then
    clearOtherStarts T
      (["COMMANDS_RUN", "COMMANDS_CLEAN", "COMMANDS_PRESSURE_TEST"].filter
        (fun mk => mk ≠ modeKey mode))
  else if cmd = .STOP ∧ value then
    clearOwnCmds T (modeKey mode) ["b_START", "b_PAUSE_PLAY", "b_CONFIRM"]
  else pure ()
  writeBool T targetTag value
  let actual ← readBool T targetTag
  if actual ≠ value then throw (.cmdVerify targetTag value)

/-- The twelve command tags in the nested-loop order of `clear_all_cmd_bits`. -/
def allCmdTags : List String :=
  (["COMMANDS_RUN", "COMMANDS_CLEAN", "COMMANDS_PRESSURE_TEST"].map (fun mk =>
    ["b_START", "b_PAUSE_PLAY", "b_CONFIRM", "b_STOP"].map
      (fun ck => mk ++ "." ++ ck))).flatten

def clearAllGo (T : Transport) : List String → M Unit
  | [] => pure ()
  | tag :: rest => do
      writeBool T tag false
      let b ← readBool T tag
      if b then throw (.clearVerify tag)
      else clearAllGo T rest

/-- `PLCInterface.clear_all_cmd_bits`. -/
def clearAllCmdBits (T : Transport) : M Unit := clearAllGo T allCmdTags

/-! ## The parameter payload and `write_parameters_to_plc`. -/

structure CustomSolvent where
  name : String
  viscosity : ℚ
  sensitivity : ℚ
  molar_volume : ℚ
deriving DecidableEq, Repr

/-- `InputPayload` (enum-valued fields carry the `int(...)` the source
writes: `OperationMode` 1/2, `MachineMode` 2/3/4, `ChipID` 0/1,
`ManifoldID` 0/1, `OrgSolventID` 0..4 with 4 = CUSTOM). -/
structure InputPayload where
  tfr : ℚ
  frr : ℤ
  target_volume : ℚ
  temperature : ℚ
  chip_id : ℤ
  manifold_id : ℤ
  lab_pressure : ℚ
  org_solvent_id : ℤ
  operation_mode : ℤ := 2
  machine_mode : ℤ := 2
  custom_solvent : Option CustomSolvent := none
deriving DecidableEq, Repr

/-- The queuing body of `write_parameters_to_plc` (the code inside
`with self.transaction() as tx:`), in source order. -/
def writeParamsQueue (payload : InputPayload) (tx : Tx) : Except Err Tx := do
  let tx := txWriteInt tx "OPERATION_MODE" payload.operation_mode
  let tx := txWriteReal tx "r_TFR" payload.tfr
  let tx := txWriteInt tx "i_FRR" payload.frr
  let tx := txWriteReal tx "r_TARGET_VOLUME" payload.target_volume
  let tx := txWriteReal tx "r_TEMPERATURE" payload.temperature
  let tx := txWriteInt tx "i_CHIP_ID" payload.chip_id
  let tx := txWriteInt tx "i_MANIFOLD_ID" payload.manifold_id
  let tx := txWriteReal tx "r_LAB_PRESSURE" payload.lab_pressure
  let tx := txWriteInt tx "i_ORG_SOLVENT_ID" payload.org_solvent_id
  if payload.org_solvent_id = 4 then
    match payload.custom_solvent with
    | none => throw Err.customSolventMissing
    | some cs => do
      let tx ← txWriteString tx "s_CUSTOM_ORG_SOLVENT" cs.name 16
      let tx := txWriteReal tx "r_VISCOSITY" cs.viscosity
      let tx := txWriteReal tx "r_SENSITIVITY" cs.sensitivity
      let tx := txWriteReal tx "r_MOLAR_VOLUME" cs.molar_volume
      pure tx
  else do
    let tx ← txWriteString tx "s_CUSTOM_ORG_SOLVENT" "" 16
    let tx := txWriteReal tx "r_VISCOSITY" 0
    let tx := txWriteReal tx "r_SENSITIVITY" 0
    let tx := txWriteReal tx "r_MOLAR_VOLUME" 0
    pure tx

/-- `PLCInterface.write_parameters_to_plc`: queue inside
`with self.transaction()`, commit at block exit; a queue-time error
propagates and commit is never reached. -/
def writeParametersToPlc (T : Transport) (payload : InputPayload) : M Unit := do
  match writeParamsQueue payload {} with
  | .error e => throw e
  | .ok tx => do
      let _ ← txCommit T tx
      pure ()

/-! ## Symbolic execution lemmas for `runM`. -/

theorem runM_pure {α : Type} (a : α) (s : St) : runM (pure a : M α) s = (.ok a, s) := rfl

theorem runM_throw {α : Type} (e : Err) (s : St) : runM (throw e : M α) s = (.error e, s) := rfl

theorem runM_bind {α β : Type} (x : M α) (f : α → M β) (s : St) :
    runM (x >>= f) s =
      match runM x s with
      | (Except.ok a, s') => runM (f a) s'
      | (Except.error e, s') => (Except.error e, s') := by
  unfold runM
  cases hx : (x.run).run s with
  | mk r s' =>
    simp only [ExceptT.run] at hx
    cases r with
    | ok a =>
      show ((x >>= ExceptT.bindCont f : StateM St (Except Err β)).run s) = _
      rw [StateT.run_bind]
      simp only [hx]
      rfl
    | error e =>
      show ((x >>= ExceptT.bindCont f : StateM St (Except Err β)).run s) = _
      rw [StateT.run_bind]
      simp only [hx]
      rfl

theorem runM_tryCatch {α : Type} (x : M α) (h : Err → M α) (s : St) :
    runM (tryCatch x h) s =
      match runM x s with
      | (Except.ok a, s') => (Except.ok a, s')
      | (Except.error e, s') => runM (h e) s' := by
  unfold runM
  cases hx : (x.run).run s with
  | mk r s' =>
    simp only [ExceptT.run] at hx
    cases r with
    | ok a =>
      show ((ExceptT.tryCatch x h).run).run s = _
      unfold ExceptT.tryCatch
      rw [ExceptT.run_mk, StateT.run_bind]
      simp only [hx]
      rfl
    | error e =>
      show ((ExceptT.tryCatch x h).run).run s = _
      unfold ExceptT.tryCatch
      rw [ExceptT.run_mk, StateT.run_bind]
      simp only [hx]
      rfl

theorem runM_modify (f : St → St) (s : St) :
    runM (modify f : M Unit) s = (.ok (), f s) := rfl

theorem runM_liftRead {α : Type} (f : St → α × St) (s : St) :
    runM (liftRead f) s = (.ok (f s).1, (f s).2) := rfl

/-! Execution of the tag-level operations, given a successful tag lookup. -/

theorem runM_writeBool {T : Transport} {tag : String} {cfg : Cfg} (v : Bool) (s : St)
    (h : resolveBoolTag tag = some cfg) :
    runM (writeBool T tag v) s =
      (.ok (), T.dbWriteBit s (byteOffset cfg) (bitOffset cfg) v) := by
  unfold writeBool
  rw [h]
  rfl

theorem runM_readBool {T : Transport} {tag : String} {cfg : Cfg} (s : St)
    (h : resolveBoolTag tag = some cfg) :
    runM (readBool T tag) s =
      (.ok (T.dbReadBit s (byteOffset cfg) (bitOffset cfg)).1,
       (T.dbReadBit s (byteOffset cfg) (bitOffset cfg)).2) := by
  unfold readBool
  rw [h]
  rfl

theorem runM_writeReal {T : Transport} {tag : String} {cfg : Cfg} {v : ℚ}
    {data : List ℕ} (s : St)
    (h : findCfg ["OPERATION", "INPUTS", "CUSTOM_SOLVENT"] tag = some cfg)
    (he : encodeReal v = some data) :
    runM (writeReal T tag v) s = (.ok (), T.dbWrite s (byteOffset cfg) data) := by
  unfold writeReal
  rw [h, he]
  rfl

theorem runM_readReal {T : Transport} {tag : String} {cfg : Cfg} (s : St)
    (h : findCfg ["OPERATION", "INPUTS", "CUSTOM_SOLVENT"] tag = some cfg) :
    runM (readReal T tag) s =
      ((match decodeReal (T.dbRead s (byteOffset cfg) 4).1 with
        | some v => Except.ok v
        | none => Except.error (Err.realNonFinite tag)),
       (T.dbRead s (byteOffset cfg) 4).2) := by
  unfold readReal
  rw [h]
  rw [runM_bind, runM_liftRead]
  cases hd : decodeReal (T.dbRead s (byteOffset cfg) 4).1 <;> simp only [hd] <;> rfl

theorem runM_writeInt {T : Transport} {tag : String} {cfg : Cfg} {v : ℤ}
    {data : List ℕ} (s : St)
    (h : findCfg ["OPERATION", "INPUTS"] tag = some cfg)
    (he : encodeInt v = some data) :
    runM (writeInt T tag v) s = (.ok (), T.dbWrite s (byteOffset cfg) data) := by
  unfold writeInt
  rw [h, he]
  rfl

theorem runM_writeInt_range {T : Transport} {tag : String} {cfg : Cfg} {v : ℤ} (s : St)
    (h : findCfg ["OPERATION", "INPUTS"] tag = some cfg)
    (he : encodeInt v = none) :
    runM (writeInt T tag v) s = (.error (.intRange v), s) := by
  unfold writeInt
  rw [h, he]
  rfl

theorem runM_readInt {T : Transport} {tag : String} {cfg : Cfg} (s : St)
    (h : findCfg ["OPERATION", "INPUTS"] tag = some cfg) :
    runM (readInt T tag) s =
      (.ok (decodeInt (T.dbRead s (byteOffset cfg) 2).1),
       (T.dbRead s (byteOffset cfg) 2).2) := by
  unfold readInt
  rw [h]
  rw [runM_bind, runM_liftRead]
  rfl

theorem runM_writeString {T : Transport} {tag : String} {cfg : Cfg}
    {value : String} {maxLen : ℕ} (s : St)
    (h : (DB_CONFIG.lookup "INPUTS").bind (fun entries => entries.lookup tag) = some cfg)
    (hty : cfg.ty = .STRING) (hlen : value.length ≤ maxLen) (hml : maxLen ≤ 255) :
    runM (writeString T tag value maxLen) s =
      (.ok (), T.dbWrite s (byteOffset cfg) (strData value maxLen)) := by
  unfold writeString
  simp only [h]
  rw [if_neg (by simp [hty]), if_neg (by omega), if_neg (by omega)]
  rfl

theorem runM_readString_zero {T : Transport} {tag : String} {cfg : Cfg} (s : St)
    (h : (DB_CONFIG.lookup "INPUTS").bind (fun entries => entries.lookup tag) = some cfg)
    (hty : cfg.ty = .STRING)
    (hz : (T.dbRead s (byteOffset cfg) 2).1.getD 1 0 = 0) :
    runM (readString T tag) s = (.ok "", (T.dbRead s (byteOffset cfg) 2).2) := by
  unfold readString
  simp only [h]
  rw [if_neg (by simp [hty])]
  rw [runM_bind, runM_liftRead]
  dsimp only
  rw [hz, if_neg (by omega)]
  rfl

theorem runM_readString_pos {T : Transport} {tag : String} {cfg : Cfg} (s : St)
    (h : (DB_CONFIG.lookup "INPUTS").bind (fun entries => entries.lookup tag) = some cfg)
    (hty : cfg.ty = .STRING)
    (hn : 0 < (T.dbRead s (byteOffset cfg) 2).1.getD 1 0) :
    runM (readString T tag) s =
      (let p1 := T.dbRead s (byteOffset cfg) 2
       let p2 := T.dbRead p1.2 (byteOffset cfg + 2) (p1.1.getD 1 0)
       ((match utf8DecodeStr p2.1 with
         | some v => Except.ok v
         | none => Except.error (Err.strDecode tag)), p2.2)) := by
  unfold readString
  simp only [h]
  rw [if_neg (by simp [hty])]
  rw [runM_bind, runM_liftRead]
  dsimp only
  rw [if_pos hn]
  rw [runM_bind, runM_liftRead]
  dsimp only
  cases hu : utf8DecodeStr
      (T.dbRead (T.dbRead s (byteOffset cfg) 2).2 (byteOffset cfg + 2)
        ((T.dbRead s (byteOffset cfg) 2).1.getD 1 0)).1 <;>
    simp only [hu] <;> rfl

/-! ## Auxiliary facts used by several claims. -/

/-- Reading back a freshly written span returns exactly the written data. -/
theorem dbReadSim_after_write (s : St) (start : ℕ) (data : List ℕ) :
    (dbReadSim (dbWriteSim s start data) start data.length).fst = data := by
  rw [dbReadSim_fst]
  apply List.ext_getElem
  · simp
  · intro k hk1 hk2
    simp only [List.getElem_map, List.getElem_range]
    have hk : k < data.length := by simpa using hk1
    rw [dbWriteSim_obsByte_in s start data (start + k) (by omega) (by omega)]
    rw [Nat.add_sub_cancel_left]
    rw [List.getD_eq_getD_get?, List.get?_eq_getElem?, List.getElem?_eq_getElem hk]
    rfl

/-- The per-write rollback step never raises (its body runs under the inner
`try`/`except` that records failures and continues). -/
theorem rollbackStep_ok (T : Transport) (w : PWrite) (s : St) :
    ∃ r s', runM (rollbackStep T w) s = (.ok r, s') := by
  unfold rollbackStep
  rw [runM_tryCatch]
  rcases hr : runM (rollbackWrite T w) s with ⟨r1, s1⟩
  cases r1 with
  | ok a => exact ⟨a, s1, rfl⟩
  | error e => exact ⟨[.exc w.tag], s1, rfl⟩

/-- The rollback loop never raises. -/
theorem rollbackAll_ok (T : Transport) (ws : List PWrite) (s : St) :
    ∃ r s', runM (rollbackAll T ws) s = (.ok r, s') := by
  induction ws generalizing s with
  | nil => exact ⟨[], s, rfl⟩
  | cons w rest ih =>
    obtain ⟨r1, s1, h1⟩ := rollbackStep_ok T w s
    obtain ⟨r2, s2, h2⟩ := ih s1
    refine ⟨r1 ++ r2, s2, ?_⟩
    show runM (rollbackStep T w >>= fun e =>
      rollbackAll T rest >>= fun es => pure (e ++ es)) s = _
    rw [runM_bind, h1]
    dsimp only
    rw [runM_bind, h2]
    dsimp only
    rw [runM_pure]

/-- Commit's `except` branch always re-raises. -/
theorem commit_handler_errs (T : Transport) (ws : List PWrite) (e : Err) (s : St) :
    ∃ e' s', runM ((do
      let rbErrs ← rollbackAll T ws
      if rbErrs ≠ [] then throw (.txRollbackFailed e rbErrs)
      else throw (.txRolledBack e) : M Tx)) s = (.error e', s') := by
  obtain ⟨r, s', hr⟩ := rollbackAll_ok T ws s
  rw [runM_bind, hr]
  dsimp only
  by_cases hne : r ≠ []
  · exact ⟨.txRollbackFailed e r, s', by rw [if_pos hne, runM_throw]⟩
  · exact ⟨.txRolledBack e, s', by rw [if_neg hne, runM_throw]⟩

/-- The success branch of commit only returns the transaction marked
committed. -/
theorem commit_body_ok (T : Transport) (tx : Tx) (a : Tx) (s s1 : St)
    (h : runM ((do
        doWrites T tx.writes
        let errors ← verifyWrites T tx.writes
        if errors ≠ [] then throw (.verify errors)
        else pure { tx with committed := true } : M Tx)) s = (.ok a, s1)) :
    a = { tx with committed := true } := by
  rw [runM_bind] at h
  rcases hw : runM (doWrites T tx.writes) s with ⟨rw1, sw⟩
  rw [hw] at h
  cases rw1 with
  | error e => dsimp only at h; simp at h
  | ok u =>
    dsimp only at h
    rw [runM_bind] at h
    rcases hv : runM (verifyWrites T tx.writes) sw with ⟨rv, sv⟩
    rw [hv] at h
    cases rv with
    | error e => dsimp only at h; simp at h
    | ok errors =>
      dsimp only at h
      by_cases hne : errors ≠ []
      · rw [if_pos hne, runM_throw] at h
        simp at h
      · rw [if_neg hne, runM_pure] at h
        have := (Prod.mk.injEq _ _ _ _ ▸ h).1
        exact (Except.ok.inj this).symm

/-! ## Claim C4 -/

/-- C4 (code bug evidence): the simulated transport's byte region does start
zero-initialized (219 zero bytes), but on-demand growth appends the literal
four-character sequence `\x7b backslash, x, 0, 0 \x7d` (bytes 92, 120, 48, 48)
rather than zero bytes, because the source writes `b'\\x00'` (an escaped
backslash) instead of `b'\x00'`.  Consequently a read beyond the initial
region returns those non-zero bytes, and the never-written command bit
CLEAN `b_STOP` (byte 260, bit 3) reads `true` on a fresh simulator — the
claim says every never-written bit reads `false`. -/
theorem C4_sim_extension_bug :
    initSt.db = List.replicate 219 0 ∧
    (dbReadSim initSt 219 4).fst = [92, 120, 48, 48] ∧
    (dbReadBitSim initSt 260 3).fst = true ∧
    (runM (readBool simClient "COMMANDS_CLEAN.b_STOP") initSt).1 = .ok true := by
  refine ⟨rfl, by decide, by decide, by decide⟩

/-! ## Claim C7 -/

/-- C7: `PLCTransaction.write_string` rejects an over-length value at queue
time with an error carrying the value and the limit, and the write does not
enter the queue; an in-range value is appended to the queue.  Queueing
performs no transport I/O at all: in particular, when the queuing phase of
`write_parameters_to_plc` raises, the transport state is returned untouched
(commit is never reached). -/
theorem C7_write_string_fail_fast :
    (∀ (tx : Tx) (tag value : String) (maxLen : ℕ), maxLen < value.length →
      txWriteString tx tag value maxLen = .error (.strTooLong value maxLen)) ∧
    (∀ (tx : Tx) (tag value : String) (maxLen : ℕ), value.length ≤ maxLen →
      txWriteString tx tag value maxLen =
        .ok { writes := tx.writes ++ [.str tag value maxLen],
              committed := tx.committed }) ∧
    (∀ (T : Transport) (payload : InputPayload) (s : St) (e : Err),
      writeParamsQueue payload {} = .error e →
      runM (writeParametersToPlc T payload) s = (.error e, s)) := by
  refine ⟨?_, ?_, ?_⟩
  · intro tx tag value maxLen h
    unfold txWriteString
    rw [if_pos h]
  · intro tx tag value maxLen h
    unfold txWriteString
    rw [if_neg (by omega)]
  · intro T payload s e h
    unfold writeParametersToPlc
    rw [h]
    rfl

def longNamePayload : InputPayload :=
  { tfr := 1, frr := 5, target_volume := 10, temperature := 25,
    chip_id := 0, manifold_id := 0, lab_pressure := 1000, org_solvent_id := 4,
    custom_solvent := some ⟨"abcdefghijklmnopq", 1, 1, 1⟩ }

theorem C7_witness :
    txWriteString {} "s_CUSTOM_ORG_SOLVENT" "abcdefghijklmnopq" 16
      = .error (.strTooLong "abcdefghijklmnopq" 16) ∧
    txWriteString {} "s_CUSTOM_ORG_SOLVENT" "EtOH" 16
      = .ok { writes := [.str "s_CUSTOM_ORG_SOLVENT" "EtOH" 16], committed := false } ∧
    runM (writeParametersToPlc simClient longNamePayload) initSt
      = (.error (.strTooLong "abcdefghijklmnopq" 16), initSt) :=
  ⟨C7_write_string_fail_fast.1 {} "s_CUSTOM_ORG_SOLVENT" "abcdefghijklmnopq" 16 (by decide),
   C7_write_string_fail_fast.2.1 {} "s_CUSTOM_ORG_SOLVENT" "EtOH" 16 (by decide),
   C7_write_string_fail_fast.2.2 simClient longNamePayload initSt _ (by decide)⟩

/-! ## Claim C8 -/

/-- C8: over the simulated transport, writing any `v ∈ [-32768, 32767]` to an
INT tag and reading the tag back returns exactly `v` (2-byte big-endian
signed encoding); for `v` outside that range the write raises a range error
(`struct.error`) before any transport I/O, leaving the state untouched. -/
theorem C8_int_roundtrip_and_range :
    (∀ (tag : String) (cfg : Cfg) (v : ℤ) (s : St),
      findCfg ["OPERATION", "INPUTS"] tag = some cfg → cfg.ty = .INT →
      -32768 ≤ v → v ≤ 32767 →
      (runM (writeInt simClient tag v) s).1 = .ok () ∧
      (runM (readInt simClient tag) (runM (writeInt simClient tag v) s).2).1 = .ok v) ∧
    (∀ (tag : String) (cfg : Cfg) (v : ℤ) (s : St),
      findCfg ["OPERATION", "INPUTS"] tag = some cfg →
      (v < -32768 ∨ 32767 < v) →
      runM (writeInt simClient tag v) s = (.error (.intRange v), s)) := by
  constructor
  · intro tag cfg v s h hty h1 h2
    have hd : encodeInt v = some [((v % 65536).toNat) / 256, ((v % 65536).toNat) % 256] := by
      unfold encodeInt
      rw [if_neg (by omega)]
    have hlen : [((v % 65536).toNat) / 256, ((v % 65536).toNat) % 256].length = 2 := rfl
    rw [runM_writeInt s h hd]
    refine ⟨rfl, ?_⟩
    rw [runM_readInt _ h]
    show Except.ok (decodeInt (dbReadSim (dbWriteSim s (byteOffset cfg) _) (byteOffset cfg) 2).1)
      = Except.ok v
    rw [← hlen, dbReadSim_after_write]
    rw [decodeInt_encodeInt v ⟨h1, h2⟩ _ hd]
  · intro tag cfg v s h hv
    exact runM_writeInt_range s h (by unfold encodeInt; rw [if_pos (by omega)])

theorem C8_witness :
    ((runM (writeInt simClient "i_FRR" (-123)) initSt).1 = .ok () ∧
     (runM (readInt simClient "i_FRR")
       (runM (writeInt simClient "i_FRR" (-123)) initSt).2).1 = .ok (-123)) ∧
    runM (writeInt simClient "i_FRR" 40000) initSt = (.error (.intRange 40000), initSt) :=
  ⟨C8_int_roundtrip_and_range.1 "i_FRR" ⟨208, .INT, none⟩ (-123) initSt (by decide) rfl
      (by decide) (by decide),
   C8_int_roundtrip_and_range.2 "i_FRR" ⟨208, .INT, none⟩ 40000 initSt (by decide)
      (by decide)⟩

/-! ## Claim C10 -/

/-- C10: once `commit()` has returned successfully, the transaction is marked
committed and any further `commit()` on it returns immediately: for every
transport and every starting state, the second call performs no transport
operation at all and returns the state (byte region and I/O trace) unchanged. -/
theorem C10_commit_idempotent (T T' : Transport) (tx tx' : Tx) (s s'' : St)
    (h : (runM (txCommit T tx) s).1 = Except.ok tx') :
    runM (txCommit T' tx') s'' = (.ok tx', s'') := by
  have hc : tx'.committed = true := by
    unfold txCommit at h
    by_cases hcom : tx.committed
    · rw [if_pos hcom, runM_pure] at h
      cases h
      exact hcom
    · rw [if_neg hcom, runM_tryCatch] at h
      rcases hb : runM (do
          doWrites T tx.writes
          let errors ← verifyWrites T tx.writes
          if errors ≠ [] then throw (.verify errors)
          else pure { tx with committed := true } : M Tx) s with ⟨rb, sb⟩
      rw [hb] at h
      cases rb with
      | ok a =>
        dsimp only at h
        have ha := commit_body_ok T tx a s sb hb
        rw [← Except.ok.inj h, ha]
      | error e =>
        dsimp only at h
        obtain ⟨e', s', he⟩ := commit_handler_errs T tx.writes e sb
        rw [he] at h
        simp at h
  unfold txCommit
  rw [if_pos hc]
  rfl

theorem C10_witness :
    runM (txCommit simClient ⟨[.int "i_FRR" 5], true⟩) initSt
      = (.ok ⟨[.int "i_FRR" 5], true⟩, initSt) :=
  C10_commit_idempotent simClient simClient ⟨[.int "i_FRR" 5], false⟩
    ⟨[.int "i_FRR" 5], true⟩ initSt initSt (by decide)

/-! ## The command bits as the code addresses them.

`modeByte` is the byte offset of each mode's command byte; `cmdBit` is the
bit offset the code computes from the float start address with
`int((start % 1) * 10)`.  Note `cmdBit .CONFIRM = 1`, the same bit as
`PAUSE_PLAY`: the doubles `x.2` are slightly below `x + 0.2`, so the
fractional-part trick truncates `1.999...` to `1`.  All reads and writes of
`b_CONFIRM` go through the same computation, so the aliasing is consistent
throughout the interface. -/

def modeByte : MachineMode → ℕ
  | .RUN => 258
  | .CLEAN => 260
  | .PRESSURE_TEST => 262

def cmdBit : ModeCmds → ℕ
  | .START => 0
  | .PAUSE_PLAY => 1
  | .CONFIRM => 1
  | .STOP => 3

def cmdCfg : MachineMode → ModeCmds → Cfg
  | .RUN, .START => ⟨258, .BOOL, none⟩
  | .RUN, .PAUSE_PLAY => ⟨(2270271609031885 : ℚ)/8796093022208, .BOOL, none⟩
  | .RUN, .CONFIRM => ⟨(4542302436668211 : ℚ)/17592186044416, .BOOL, none⟩
  | .RUN, .STOP => ⟨(4544061655272653 : ℚ)/17592186044416, .BOOL, none⟩
  | .CLEAN, .START => ⟨260, .BOOL, none⟩
  | .CLEAN, .PAUSE_PLAY => ⟨(2287863795076301 : ℚ)/8796093022208, .BOOL, none⟩
  | .CLEAN, .CONFIRM => ⟨(4577486808757043 : ℚ)/17592186044416, .BOOL, none⟩
  | .CLEAN, .STOP => ⟨(4579246027361485 : ℚ)/17592186044416, .BOOL, none⟩
  | .PRESSURE_TEST, .START => ⟨262, .BOOL, none⟩
  | .PRESSURE_TEST, .PAUSE_PLAY => ⟨(2305455981120717 : ℚ)/8796093022208, .BOOL, none⟩
  | .PRESSURE_TEST, .CONFIRM => ⟨(4612671180845875 : ℚ)/17592186044416, .BOOL, none⟩
  | .PRESSURE_TEST, .STOP => ⟨(4614430399450317 : ℚ)/17592186044416, .BOOL, none⟩

theorem resolve_cmdCfg (mode : MachineMode) (cmd : ModeCmds) :
    resolveBoolTag (modeKey mode ++ "." ++ cmdKey cmd) = some (cmdCfg mode cmd) := by
  cases mode <;> cases cmd <;> decide

theorem cmdCfg_byte (mode : MachineMode) (cmd : ModeCmds) :
    byteOffset (cmdCfg mode cmd) = modeByte mode := by
  cases mode <;> cases cmd <;> decide

theorem cmdCfg_bit (mode : MachineMode) (cmd : ModeCmds) :
    bitOffset (cmdCfg mode cmd) = cmdBit cmd := by
  cases mode <;> cases cmd <;> decide

theorem writeBool_cmd_run (mode : MachineMode) (cmd : ModeCmds) (v : Bool) (s : St) :
    runM (writeBool simClient (modeKey mode ++ "." ++ cmdKey cmd) v) s =
      (.ok (), dbWriteBitSim s (modeByte mode) (cmdBit cmd) v) := by
  rw [runM_writeBool v s (resolve_cmdCfg mode cmd), cmdCfg_byte, cmdCfg_bit]
  rfl

theorem readBool_cmd_run (mode : MachineMode) (cmd : ModeCmds) (s : St) :
    runM (readBool simClient (modeKey mode ++ "." ++ cmdKey cmd)) s =
      (.ok (obsBit s.db (modeByte mode) (cmdBit cmd)),
       (dbReadBitSim s (modeByte mode) (cmdBit cmd)).2) := by
  rw [runM_readBool s (resolve_cmdCfg mode cmd), cmdCfg_byte, cmdCfg_bit]
  rw [show simClient.dbReadBit = dbReadBitSim from rfl, dbReadBitSim_fst]

/-! ### Closed-form executions of the command operations on the simulator. -/

theorem clearOwnCmds_run (mode : MachineMode) (s : St) :
    runM (clearOwnCmds simClient (modeKey mode) ["b_START", "b_PAUSE_PLAY", "b_CONFIRM"]) s =
      (.ok (), dbWriteBitSim (dbWriteBitSim (dbWriteBitSim s
        (modeByte mode) 0 false) (modeByte mode) 1 false) (modeByte mode) 1 false) := by
  simp only [clearOwnCmds]
  rw [runM_bind, writeBool_cmd_run mode .START false s]
  dsimp only
  rw [runM_bind, writeBool_cmd_run mode .PAUSE_PLAY false _]
  dsimp only
  rw [runM_bind, writeBool_cmd_run mode .CONFIRM false _]
  dsimp only
  rw [runM_pure]
  rfl

/-- `pulse_cmd(mode, STOP, True)` on the simulator: clear Start (bit 0),
PausePlay (bit 1), Confirm (bit 1 — aliased), set Stop (bit 3), read Stop
back (true, so no error). -/
theorem pulseCmd_stop_sim (mode : MachineMode) (s : St) :
    runM (pulseCmd simClient mode .STOP true) s =
      (.ok (), (dbReadBitSim (dbWriteBitSim (dbWriteBitSim (dbWriteBitSim (dbWriteBitSim s
          (modeByte mode) 0 false) (modeByte mode) 1 false) (modeByte mode) 1 false)
          (modeByte mode) 3 true) (modeByte mode) 3).2) := by
  unfold pulseCmd
  dsimp only
  rw [if_neg (by decide), if_pos (by decide)]
  rw [runM_bind, clearOwnCmds_run mode s]
  dsimp only
  rw [runM_bind, writeBool_cmd_run mode .STOP true _]
  dsimp only
  rw [runM_bind, readBool_cmd_run mode .STOP _]
  dsimp only
  rw [show cmdBit ModeCmds.STOP = 3 from rfl, dbWriteBitSim_obsBit_same]
  rw [if_neg (by simp)]
  rw [runM_pure]

def otherA : MachineMode → MachineMode
  | .RUN => .CLEAN
  | .CLEAN => .RUN
  | .PRESSURE_TEST => .RUN

def otherB : MachineMode → MachineMode
  | .RUN => .PRESSURE_TEST
  | .CLEAN => .PRESSURE_TEST
  | .PRESSURE_TEST => .CLEAN

theorem resolveStartFlat (m : MachineMode) :
    resolveBoolTag (modeKey m ++ ".b_START") = some (cmdCfg m .START) := by
  cases m <;> decide

theorem writeBool_start_flat (m : MachineMode) (v : Bool) (s : St) :
    runM (writeBool simClient (modeKey m ++ ".b_START") v) s =
      (.ok (), dbWriteBitSim s (modeByte m) 0 v) := by
  rw [runM_writeBool v s (resolveStartFlat m), cmdCfg_byte]
  rw [show bitOffset (cmdCfg m .START) = 0 from by rw [cmdCfg_bit]; rfl]
  rfl

theorem clearOtherStarts_run (m1 m2 : MachineMode) (s : St) :
    runM (clearOtherStarts simClient [modeKey m1, modeKey m2]) s =
      (.ok (), dbWriteBitSim (dbWriteBitSim s (modeByte m1) 0 false) (modeByte m2) 0 false) := by
  simp only [clearOtherStarts]
  rw [runM_bind, writeBool_start_flat m1 false s]
  dsimp only
  rw [runM_bind, writeBool_start_flat m2 false _]
  dsimp only
  rw [runM_pure]

/-- `pulse_cmd(mode, START, True)` on the simulator: clear Start in the two
other modes (in `mode_map` order), set own Start, read it back (true). -/
theorem pulseCmd_start_sim (mode : MachineMode) (s : St) :
    runM (pulseCmd simClient mode .START true) s =
      (.ok (), (dbReadBitSim (dbWriteBitSim (dbWriteBitSim (dbWriteBitSim s
          (modeByte (otherA mode)) 0 false) (modeByte (otherB mode)) 0 false)
          (modeByte mode) 0 true) (modeByte mode) 0).2) := by
  have tail : ∀ (m : MachineMode) (s1 : St),
      runM (writeBool simClient (modeKey m ++ "." ++ cmdKey ModeCmds.START) true >>=
        fun _ => readBool simClient (modeKey m ++ "." ++ cmdKey ModeCmds.START) >>=
        fun actual => if actual ≠ true
          then throw (.cmdVerify (modeKey m ++ "." ++ cmdKey ModeCmds.START) true)
          else pure ()) s1 =
      (.ok (), (dbReadBitSim (dbWriteBitSim s1 (modeByte m) 0 true) (modeByte m) 0).2) := by
    intro m s1
    rw [runM_bind, writeBool_cmd_run m .START true s1]
    dsimp only
    rw [runM_bind, readBool_cmd_run m .START _]
    dsimp only
    rw [show cmdBit ModeCmds.START = 0 from rfl, dbWriteBitSim_obsBit_same]
    rw [if_neg (by simp)]
    rw [runM_pure]
  cases mode with
  | RUN =>
    unfold pulseCmd
    dsimp only
    rw [if_pos (by decide)]
    rw [show (["COMMANDS_RUN", "COMMANDS_CLEAN", "COMMANDS_PRESSURE_TEST"].filter
      (fun mk => mk ≠ modeKey MachineMode.RUN))
      = [modeKey MachineMode.CLEAN, modeKey MachineMode.PRESSURE_TEST] from by decide]
    rw [runM_bind, clearOtherStarts_run .CLEAN .PRESSURE_TEST s]
    dsimp only
    exact tail .RUN _
  | CLEAN =>
    unfold pulseCmd
    dsimp only
    rw [if_pos (by decide)]
    rw [show (["COMMANDS_RUN", "COMMANDS_CLEAN", "COMMANDS_PRESSURE_TEST"].filter
      (fun mk => mk ≠ modeKey MachineMode.CLEAN))
      = [modeKey MachineMode.RUN, modeKey MachineMode.PRESSURE_TEST] from by decide]
    rw [runM_bind, clearOtherStarts_run .RUN .PRESSURE_TEST s]
    dsimp only
    exact tail .CLEAN _
  | PRESSURE_TEST =>
    unfold pulseCmd
    dsimp only
    rw [if_pos (by decide)]
    rw [show (["COMMANDS_RUN", "COMMANDS_CLEAN", "COMMANDS_PRESSURE_TEST"].filter
      (fun mk => mk ≠ modeKey MachineMode.PRESSURE_TEST))
      = [modeKey MachineMode.RUN, modeKey MachineMode.CLEAN] from by decide]
    rw [runM_bind, clearOtherStarts_run .RUN .CLEAN s]
    dsimp only
    exact tail .PRESSURE_TEST _

/-- Any other `pulse_cmd` call (not START-true, not STOP-true) on the
simulator: one write of the target bit, one read-back, no error. -/
theorem pulseCmd_other_sim (mode : MachineMode) (cmd : ModeCmds) (v : Bool) (s : St)
    (h1 : ¬(cmd = .START ∧ v = true)) (h2 : ¬(cmd = .STOP ∧ v = true)) :
    runM (pulseCmd simClient mode cmd v) s =
      (.ok (), (dbReadBitSim (dbWriteBitSim s (modeByte mode) (cmdBit cmd) v)
        (modeByte mode) (cmdBit cmd)).2) := by
  unfold pulseCmd
  dsimp only
  rw [if_neg h1, if_neg h2]
  rw [runM_bind, runM_pure]
  dsimp only
  rw [runM_bind, writeBool_cmd_run mode cmd v s]
  dsimp only
  rw [runM_bind, readBool_cmd_run mode cmd _]
  dsimp only
  rw [dbWriteBitSim_obsBit_same]
  rw [if_neg (by simp)]
  rw [runM_pure]

/-! ### `clear_all_cmd_bits` in closed form. -/

/-- One `clear_all_cmd_bits` iteration: write the bit false, read it back. -/
def clearStep (s : St) (b j : ℕ) : St := (dbReadBitSim (dbWriteBitSim s b j false) b j).2

def cmdPairs : List (MachineMode × ModeCmds) :=
  [(.RUN, .START), (.RUN, .PAUSE_PLAY), (.RUN, .CONFIRM), (.RUN, .STOP),
   (.CLEAN, .START), (.CLEAN, .PAUSE_PLAY), (.CLEAN, .CONFIRM), (.CLEAN, .STOP),
   (.PRESSURE_TEST, .START), (.PRESSURE_TEST, .PAUSE_PLAY),
   (.PRESSURE_TEST, .CONFIRM), (.PRESSURE_TEST, .STOP)]

def clearAllState (s : St) : St :=
  cmdPairs.foldl (fun s p => clearStep s (modeByte p.1) (cmdBit p.2)) s

theorem allCmdTags_eq :
    allCmdTags = cmdPairs.map (fun p => modeKey p.1 ++ "." ++ cmdKey p.2) := by decide

theorem clearAllGo_cons (m : MachineMode) (c : ModeCmds) (rest : List String) (s : St) :
    runM (clearAllGo simClient ((modeKey m ++ "." ++ cmdKey c) :: rest)) s =
      runM (clearAllGo simClient rest) (clearStep s (modeByte m) (cmdBit c)) := by
  simp only [clearAllGo]
  rw [runM_bind, writeBool_cmd_run m c false s]
  dsimp only
  rw [runM_bind, readBool_cmd_run m c _]
  dsimp only
  rw [dbWriteBitSim_obsBit_same]
  rw [if_neg (by simp)]
  rfl

theorem clearAllGo_pairs (ps : List (MachineMode × ModeCmds)) (s : St) :
    runM (clearAllGo simClient (ps.map (fun p => modeKey p.1 ++ "." ++ cmdKey p.2))) s =
      (.ok (), ps.foldl (fun s p => clearStep s (modeByte p.1) (cmdBit p.2)) s) := by
  induction ps generalizing s with
  | nil => rfl
  | cons p rest ih =>
    rw [List.map_cons, clearAllGo_cons p.1 p.2, ih]
    rfl

/-- `clear_all_cmd_bits` on the simulator never raises: each bit is written
false and reads back false. -/
theorem clearAllCmdBits_run (s : St) :
    runM (clearAllCmdBits simClient) s = (.ok (), clearAllState s) := by
  unfold clearAllCmdBits
  rw [allCmdTags_eq, clearAllGo_pairs]
  rfl

/-! ### Trace equations for the primitives. -/

theorem dbWriteBitSim_trace (s : St) (b j : ℕ) (v : Bool) :
    (dbWriteBitSim s b j v).trace = s.trace ++ [.wbit b j v] := rfl

theorem dbReadBitSim_snd_trace (s : St) (b j : ℕ) :
    (dbReadBitSim s b j).2.trace = s.trace ++ [.rbit b j] := rfl

theorem dbReadBitSim_snd_obsBit (s : St) (b j i k : ℕ) :
    obsBit (dbReadBitSim s b j).2.db i k = obsBit s.db i k := by
  unfold obsBit
  rw [dbReadBitSim_snd_obsByte]

theorem clearStep_obsBit (s : St) (b j i k : ℕ) :
    obsBit (clearStep s b j).db i k = if i = b ∧ k = j then false else obsBit s.db i k := by
  unfold clearStep
  rw [dbReadBitSim_snd_obsBit]
  by_cases h : i = b ∧ k = j
  · rw [if_pos h, h.1, h.2, dbWriteBitSim_obsBit_same]
  · rw [if_neg h, dbWriteBitSim_obsBit_other s b j false i k h]

theorem clearStep_trace (s : St) (b j : ℕ) :
    (clearStep s b j).trace = s.trace ++ [.wbit b j false, .rbit b j] := by
  unfold clearStep
  rw [dbReadBitSim_snd_trace, dbWriteBitSim_trace]
  simp

/-! ### Mode bookkeeping. -/

theorem mode_cover (m x : MachineMode) (h : x ≠ m) : x = otherA m ∨ x = otherB m := by
  revert h
  cases m <;> cases x <;> decide

theorem modeByte_ne (m m' : MachineMode) (h : m ≠ m') : modeByte m ≠ modeByte m' := by
  revert h
  cases m <;> cases m' <;> decide

theorem otherA_ne (m : MachineMode) : otherA m ≠ m := by cases m <;> decide

theorem otherB_ne (m : MachineMode) : otherB m ≠ m := by cases m <;> decide

theorem otherA_ne_otherB (m : MachineMode) : otherA m ≠ otherB m := by cases m <;> decide

/-! ### The observable Start bits across command operations. -/

/-- Which commands the model can issue (`pulse_cmd` calls and
`clear_all_cmd_bits`). -/
inductive CmdOp
  | pulse (mode : MachineMode) (cmd : ModeCmds) (value : Bool)
  | clearAll
deriving DecidableEq, Repr

def runCmd (s : St) : CmdOp → St
  | .pulse m c v => (runM (pulseCmd simClient m c v) s).2
  | .clearAll => (runM (clearAllCmdBits simClient) s).2

def runCmds (ops : List CmdOp) (s : St) : St := ops.foldl runCmd s

/-- The observable value of a mode's Start bit (what `_read_bool` of that
tag returns). -/
def startTrue (s : St) (m : MachineMode) : Bool := obsBit s.db (modeByte m) 0

def AtMostOneStart (s : St) : Prop :=
  ∀ m m', startTrue s m = true → startTrue s m' = true → m = m'

theorem startTrue_pulse_start (m : MachineMode) (s : St) (x : MachineMode) :
    startTrue (runCmd s (.pulse m .START true)) x = (if x = m then true else false) := by
  show startTrue (runM (pulseCmd simClient m .START true) s).2 x = _
  rw [pulseCmd_start_sim]
  unfold startTrue
  rw [dbReadBitSim_snd_obsBit]
  by_cases hx : x = m
  · rw [if_pos hx, hx, dbWriteBitSim_obsBit_same]
  · rw [if_neg hx]
    rw [dbWriteBitSim_obsBit_other _ _ _ _ _ _
      (by intro hc; exact modeByte_ne x m hx hc.1)]
    rcases mode_cover m x hx with hA | hB
    · rw [dbWriteBitSim_obsBit_other _ _ _ _ _ _
        (by intro hc; exact modeByte_ne x (otherB m) (hA ▸ otherA_ne_otherB m) hc.1)]
      rw [hA, dbWriteBitSim_obsBit_same]
    · rw [hB, dbWriteBitSim_obsBit_same]

theorem startTrue_pulse_stop (m : MachineMode) (s : St) (x : MachineMode) :
    startTrue (runCmd s (.pulse m .STOP true)) x =
      (if x = m then false else startTrue s x) := by
  show startTrue (runM (pulseCmd simClient m .STOP true) s).2 x = _
  rw [pulseCmd_stop_sim]
  unfold startTrue
  rw [dbReadBitSim_snd_obsBit]
  rw [dbWriteBitSim_obsBit_other _ _ _ _ _ _ (by intro hc; exact absurd hc.2 (by decide))]
  by_cases hx : x = m
  · rw [if_pos hx]
    rw [dbWriteBitSim_obsBit_other _ _ _ _ _ _ (by intro hc; exact absurd hc.2 (by decide))]
    rw [dbWriteBitSim_obsBit_other _ _ _ _ _ _ (by intro hc; exact absurd hc.2 (by decide))]
    rw [hx, dbWriteBitSim_obsBit_same]
  · rw [if_neg hx]
    have hb := modeByte_ne x m hx
    rw [dbWriteBitSim_obsBit_other _ _ _ _ _ _ (by intro hc; exact hb hc.1)]
    rw [dbWriteBitSim_obsBit_other _ _ _ _ _ _ (by intro hc; exact hb hc.1)]
    rw [dbWriteBitSim_obsBit_other _ _ _ _ _ _ (by intro hc; exact hb hc.1)]

theorem startTrue_pulse_single (m : MachineMode) (c : ModeCmds) (v : Bool) (s : St)
    (x : MachineMode)
    (h1 : ¬(c = .START ∧ v = true)) (h2 : ¬(c = .STOP ∧ v = true)) :
    startTrue (runCmd s (.pulse m c v)) x =
      (if x = m ∧ c = .START then v else startTrue s x) := by
  show startTrue (runM (pulseCmd simClient m c v) s).2 x = _
  rw [pulseCmd_other_sim m c v s h1 h2]
  unfold startTrue
  rw [dbReadBitSim_snd_obsBit]
  by_cases hx : x = m ∧ c = .START
  · rw [if_pos hx, hx.1]
    rw [show cmdBit c = 0 from by rw [hx.2]; rfl]
    rw [dbWriteBitSim_obsBit_same]
  · rw [if_neg hx]
    rw [dbWriteBitSim_obsBit_other]
    intro hc
    by_cases hxm : x = m
    · have hc0 : cmdBit c = 0 := hc.2.symm
      have : c = .START := by
        revert hc0
        cases c <;> decide
      exact hx ⟨hxm, this⟩
    · exact modeByte_ne x m hxm hc.1

theorem startTrue_clearAll (s : St) (x : MachineMode) :
    startTrue (runCmd s .clearAll) x = false := by
  show startTrue (runM (clearAllCmdBits simClient) s).2 x = _
  rw [clearAllCmdBits_run]
  show startTrue (clearAllState s) x = false
  unfold startTrue clearAllState cmdPairs
  cases x <;>
    simp [List.foldl, clearStep_obsBit, modeByte, cmdBit]

/-! ## Claim C2 -/

/-- C2: for every mode and every simulator state in which that mode's Start,
PausePlay and Confirm bits all read true, `pulse_cmd(mode, STOP, True)`
succeeds and afterwards Start, PausePlay and Confirm read false while Stop
reads true.  (Note `b_CONFIRM` aliases bit 1, the `b_PAUSE_PLAY` bit, because
of the float bit-offset encoding; reads use the same aliasing, so the
read-back property holds as stated.) -/
theorem C2_stop_cascade (mode : MachineMode) (s : St)
    (hstart : (runM (readBool simClient (modeKey mode ++ "." ++ cmdKey .START)) s).1
      = .ok true)
    (hpause : (runM (readBool simClient (modeKey mode ++ "." ++ cmdKey .PAUSE_PLAY)) s).1
      = .ok true)
    (hconfirm : (runM (readBool simClient (modeKey mode ++ "." ++ cmdKey .CONFIRM)) s).1
      = .ok true) :
    (runM (pulseCmd simClient mode .STOP true) s).1 = .ok () ∧
    (runM (readBool simClient (modeKey mode ++ "." ++ cmdKey .START))
      (runM (pulseCmd simClient mode .STOP true) s).2).1 = .ok false ∧
    (runM (readBool simClient (modeKey mode ++ "." ++ cmdKey .PAUSE_PLAY))
      (runM (pulseCmd simClient mode .STOP true) s).2).1 = .ok false ∧
    (runM (readBool simClient (modeKey mode ++ "." ++ cmdKey .CONFIRM))
      (runM (pulseCmd simClient mode .STOP true) s).2).1 = .ok false ∧
    (runM (readBool simClient (modeKey mode ++ "." ++ cmdKey .STOP))
      (runM (pulseCmd simClient mode .STOP true) s).2).1 = .ok true := by
  rw [pulseCmd_stop_sim]
  dsimp only
  have hb0 : obsBit ((dbReadBitSim (dbWriteBitSim (dbWriteBitSim (dbWriteBitSim
      (dbWriteBitSim s (modeByte mode) 0 false) (modeByte mode) 1 false)
      (modeByte mode) 1 false) (modeByte mode) 3 true) (modeByte mode) 3).2).db
      (modeByte mode) 0 = false := by
    rw [dbReadBitSim_snd_obsBit]
    rw [dbWriteBitSim_obsBit_other _ _ _ _ _ _ (by simp)]
    rw [dbWriteBitSim_obsBit_other _ _ _ _ _ _ (by simp)]
    rw [dbWriteBitSim_obsBit_other _ _ _ _ _ _ (by simp)]
    rw [dbWriteBitSim_obsBit_same]
  have hb1 : obsBit ((dbReadBitSim (dbWriteBitSim (dbWriteBitSim (dbWriteBitSim
      (dbWriteBitSim s (modeByte mode) 0 false) (modeByte mode) 1 false)
      (modeByte mode) 1 false) (modeByte mode) 3 true) (modeByte mode) 3).2).db
      (modeByte mode) 1 = false := by
    rw [dbReadBitSim_snd_obsBit]
    rw [dbWriteBitSim_obsBit_other _ _ _ _ _ _ (by simp)]
    rw [dbWriteBitSim_obsBit_same]
  have hb3 : obsBit ((dbReadBitSim (dbWriteBitSim (dbWriteBitSim (dbWriteBitSim
      (dbWriteBitSim s (modeByte mode) 0 false) (modeByte mode) 1 false)
      (modeByte mode) 1 false) (modeByte mode) 3 true) (modeByte mode) 3).2).db
      (modeByte mode) 3 = true := by
    rw [dbReadBitSim_snd_obsBit]
    rw [dbWriteBitSim_obsBit_same]
  refine ⟨rfl, ?_, ?_, ?_, ?_⟩ <;> rw [readBool_cmd_run] <;> dsimp only
  · rw [show cmdBit ModeCmds.START = 0 from rfl, hb0]
  · rw [show cmdBit ModeCmds.PAUSE_PLAY = 1 from rfl, hb1]
  · rw [show cmdBit ModeCmds.CONFIRM = 1 from rfl, hb1]
  · rw [show cmdBit ModeCmds.STOP = 3 from rfl, hb3]

def c2state : St :=
  (runM (pulseCmd simClient .RUN .CONFIRM true)
    ((runM (pulseCmd simClient .RUN .PAUSE_PLAY true)
      ((runM (pulseCmd simClient .RUN .START true) initSt).2)).2)).2

theorem C2_witness :
    (runM (pulseCmd simClient MachineMode.RUN .STOP true) c2state).1 = .ok () ∧
    (runM (readBool simClient (modeKey MachineMode.RUN ++ "." ++ cmdKey .START))
      (runM (pulseCmd simClient MachineMode.RUN .STOP true) c2state).2).1 = .ok false ∧
    (runM (readBool simClient (modeKey MachineMode.RUN ++ "." ++ cmdKey .PAUSE_PLAY))
      (runM (pulseCmd simClient MachineMode.RUN .STOP true) c2state).2).1 = .ok false ∧
    (runM (readBool simClient (modeKey MachineMode.RUN ++ "." ++ cmdKey .CONFIRM))
      (runM (pulseCmd simClient MachineMode.RUN .STOP true) c2state).2).1 = .ok false ∧
    (runM (readBool simClient (modeKey MachineMode.RUN ++ "." ++ cmdKey .STOP))
      (runM (pulseCmd simClient MachineMode.RUN .STOP true) c2state).2).1 = .ok true :=
  C2_stop_cascade .RUN c2state (by decide) (by decide) (by decide)

/-! ## Claim C3 -/

/-- C3: cross-mode Start exclusivity.  First half: for distinct modes, after
`pulse_cmd(m1, START, True)` then `pulse_cmd(m2, START, True)`, `m1`'s Start
bit reads false and `m2`'s reads true.  Second half: after any sequence of
command operations (`pulse_cmd` calls and `clear_all_cmd_bits`) starting
from a fresh simulator, at most one mode's Start bit is observably true. -/
theorem C3_start_exclusivity :
    (∀ (m1 m2 : MachineMode) (s : St), m1 ≠ m2 →
      (runM (readBool simClient (modeKey m1 ++ "." ++ cmdKey .START))
        (runCmds [.pulse m1 .START true, .pulse m2 .START true] s)).1 = .ok false ∧
      (runM (readBool simClient (modeKey m2 ++ "." ++ cmdKey .START))
        (runCmds [.pulse m1 .START true, .pulse m2 .START true] s)).1 = .ok true) ∧
    (∀ ops : List CmdOp, AtMostOneStart (runCmds ops initSt)) := by
  constructor
  · intro m1 m2 s hne
    have hrun : runCmds [.pulse m1 .START true, .pulse m2 .START true] s
        = runCmd (runCmd s (.pulse m1 .START true)) (.pulse m2 .START true) := rfl
    constructor <;>
      rw [hrun, readBool_cmd_run] <;> dsimp only <;>
      rw [show cmdBit ModeCmds.START = 0 from rfl]
    · show Except.ok (startTrue (runCmd _ (.pulse m2 .START true)) m1) = _
      rw [startTrue_pulse_start, if_neg hne]
    · show Except.ok (startTrue (runCmd _ (.pulse m2 .START true)) m2) = _
      rw [startTrue_pulse_start, if_pos rfl]
  · have step : ∀ (s : St) (op : CmdOp), AtMostOneStart s → AtMostOneStart (runCmd s op) := by
      intro s op h
      cases op with
      | clearAll =>
        intro x x' hx _
        rw [startTrue_clearAll] at hx
        exact absurd hx (by simp)
      | pulse m c v =>
        by_cases h1 : c = .START ∧ v = true
        · obtain ⟨hc, hv⟩ := h1
          subst hc; subst hv
          intro x x' hx hx'
          rw [startTrue_pulse_start] at hx hx'
          have ex : x = m := by
            by_contra ex
            rw [if_neg ex] at hx
            exact absurd hx (by simp)
          have ex' : x' = m := by
            by_contra ex'
            rw [if_neg ex'] at hx'
            exact absurd hx' (by simp)
          rw [ex, ex']
        · by_cases h2 : c = .STOP ∧ v = true
          · obtain ⟨hc, hv⟩ := h2
            subst hc; subst hv
            intro x x' hx hx'
            rw [startTrue_pulse_stop] at hx hx'
            by_cases ex : x = m
            · rw [if_pos ex] at hx; exact absurd hx (by simp)
            · rw [if_neg ex] at hx
              by_cases ex' : x' = m
              · rw [if_pos ex'] at hx'; exact absurd hx' (by simp)
              · rw [if_neg ex'] at hx'
                exact h x x' hx hx'
          · intro x x' hx hx'
            rw [startTrue_pulse_single m c v s x h1 h2] at hx
            rw [startTrue_pulse_single m c v s x' h1 h2] at hx'
            by_cases ex : x = m ∧ c = .START
            · rw [if_pos ex] at hx
              exact absurd ⟨ex.2, hx⟩ h1
            · rw [if_neg ex] at hx
              by_cases ex' : x' = m ∧ c = .START
              · rw [if_pos ex'] at hx'
                exact absurd ⟨ex'.2, hx'⟩ h1
              · rw [if_neg ex'] at hx'
                exact h x x' hx hx'
    have hinit : AtMostOneStart initSt := by
      intro x x' hx _
      exfalso
      revert hx
      cases x <;> decide
    have hgen : ∀ (ops : List CmdOp) (s : St),
        AtMostOneStart s → AtMostOneStart (runCmds ops s) := by
      intro ops
      induction ops with
      | nil => intro s hs; exact hs
      | cons op rest ih =>
        intro s hs
        exact ih (runCmd s op) (step s op hs)
    intro ops
    exact hgen ops initSt hinit

theorem C3_witness :
    ((runM (readBool simClient (modeKey MachineMode.RUN ++ "." ++ cmdKey .START))
        (runCmds [.pulse .RUN .START true, .pulse .CLEAN .START true] initSt)).1
      = .ok false ∧
     (runM (readBool simClient (modeKey MachineMode.CLEAN ++ "." ++ cmdKey .START))
        (runCmds [.pulse .RUN .START true, .pulse .CLEAN .START true] initSt)).1
      = .ok true) ∧
    AtMostOneStart (runCmds [.pulse .RUN .START true, .pulse .CLEAN .START true,
      .pulse .RUN .PAUSE_PLAY true, .clearAll] initSt) :=
  ⟨C3_start_exclusivity.1 .RUN .CLEAN initSt (by decide),
   C3_start_exclusivity.2 [.pulse .RUN .START true, .pulse .CLEAN .START true,
      .pulse .RUN .PAUSE_PLAY true, .clearAll]⟩

/-! ## Claim C6 -/

def isReadEv : Ev → Bool
  | .rbit _ _ => true
  | _ => false

theorem pulse_trace_start (mode : MachineMode) (s : St) :
    ((runM (pulseCmd simClient mode .START true) s).2).trace =
      s.trace ++ [.wbit (modeByte (otherA mode)) 0 false,
        .wbit (modeByte (otherB mode)) 0 false,
        .wbit (modeByte mode) 0 true, .rbit (modeByte mode) 0] := by
  rw [pulseCmd_start_sim]
  dsimp only
  rw [dbReadBitSim_snd_trace, dbWriteBitSim_trace, dbWriteBitSim_trace, dbWriteBitSim_trace]
  simp

theorem pulse_trace_stop (mode : MachineMode) (s : St) :
    ((runM (pulseCmd simClient mode .STOP true) s).2).trace =
      s.trace ++ [.wbit (modeByte mode) 0 false, .wbit (modeByte mode) 1 false,
        .wbit (modeByte mode) 1 false, .wbit (modeByte mode) 3 true,
        .rbit (modeByte mode) 3] := by
  rw [pulseCmd_stop_sim]
  dsimp only
  rw [dbReadBitSim_snd_trace, dbWriteBitSim_trace, dbWriteBitSim_trace, dbWriteBitSim_trace,
    dbWriteBitSim_trace]
  simp

theorem pulse_trace_single (mode : MachineMode) (cmd : ModeCmds) (v : Bool) (s : St)
    (h1 : ¬(cmd = .START ∧ v = true)) (h2 : ¬(cmd = .STOP ∧ v = true)) :
    ((runM (pulseCmd simClient mode cmd v) s).2).trace =
      s.trace ++ [.wbit (modeByte mode) (cmdBit cmd) v, .rbit (modeByte mode) (cmdBit cmd)] := by
  rw [pulseCmd_other_sim mode cmd v s h1 h2]
  dsimp only
  rw [dbReadBitSim_snd_trace, dbWriteBitSim_trace]
  simp

/-- A test double for the engineered read-back mismatch: identical to the
simulator except that single-bit writes to byte 260, bit 0 (CLEAN `b_START`)
do not stick. -/
def dropClean0 : Transport :=
  { dbWrite := dbWriteSim, dbRead := dbReadSim,
    dbWriteBit := fun s b j v =>
      if b = 260 ∧ j = 0 then { s with trace := s.trace ++ [.wbit b j v] }
      else dbWriteBitSim s b j v,
    dbReadBit := dbReadBitSim }

def clearAllTrace : List Ev :=
  (cmdPairs.map (fun p =>
    [Ev.wbit (modeByte p.1) (cmdBit p.2) false, Ev.rbit (modeByte p.1) (cmdBit p.2)])).flatten

theorem clearAllState_trace (s : St) : (clearAllState s).trace = s.trace ++ clearAllTrace := by
  show (clearAllState s).trace = _
  unfold clearAllState cmdPairs clearAllTrace
  simp [clearStep_trace, cmdPairs]

/-- C6 counterexample: in `pulse_cmd(RUN, START, True)` from a fresh
simulator, the cascade clear of CLEAN's Start bit (byte 260, bit 0) is a
single-bit mutation that is never followed by a read-back of that bit — the
only read-back is of the target bit. -/
theorem C6_cascade_clear_not_read_back :
    Ev.wbit 260 0 false ∈ ((runM (pulseCmd simClient .RUN .START true) initSt).2).trace ∧
    Ev.rbit 260 0 ∉ ((runM (pulseCmd simClient .RUN .START true) initSt).2).trace := by
  decide

/-- C6 (amended): `pulse_cmd` reads back only the finally-targeted bit;
cascade-cleared bits are not individually verified.  A read-back mismatch on
the target (engineered here with a transport that drops writes to CLEAN's
Start bit) raises an error identifying the bit and the requested value —
but not the actual value (`Err.cmdVerify` carries exactly the two values
interpolated into the source's message).  `clear_all_cmd_bits`, by contrast,
does read back every bit it writes, in write/read alternation. -/
theorem C6_only_target_read_back :
    (∀ (mode : MachineMode) (cmd : ModeCmds) (v : Bool) (s : St),
      ((((runM (pulseCmd simClient mode cmd v) s).2).trace.drop s.trace.length).filter
        isReadEv) = [Ev.rbit (modeByte mode) (cmdBit cmd)]) ∧
    (runM (pulseCmd dropClean0 .CLEAN .START true) initSt).1
      = .error (.cmdVerify (modeKey .CLEAN ++ "." ++ cmdKey .START) true) ∧
    (∀ s : St, runM (clearAllCmdBits simClient) s = (.ok (), clearAllState s) ∧
      (clearAllState s).trace = s.trace ++ clearAllTrace) := by
  refine ⟨?_, by decide, fun s => ⟨clearAllCmdBits_run s, clearAllState_trace s⟩⟩
  intro mode cmd v s
  by_cases h1 : cmd = .START ∧ v = true
  · obtain ⟨hc, hv⟩ := h1
    subst hc; subst hv
    rw [pulse_trace_start, List.drop_left, List.filter]
    simp only [isReadEv, List.filter]
    rfl
  · by_cases h2 : cmd = .STOP ∧ v = true
    · obtain ⟨hc, hv⟩ := h2
      subst hc; subst hv
      rw [pulse_trace_stop, List.drop_left]
      simp only [isReadEv, List.filter]
      rfl
    · rw [pulse_trace_single mode cmd v s h1 h2, List.drop_left]
      simp [isReadEv, List.filter]

/-! ## Frame reasoning: which bytes an operation can change. -/

/-- `FrameAt x i`: running `x` from any state leaves the observable value of
byte `i` unchanged. -/
def FrameAt {α : Type} (x : M α) (i : ℕ) : Prop :=
  ∀ s : St, obsByte ((runM x s).2).db i = obsByte s.db i

theorem frameAt_pure {α : Type} (a : α) (i : ℕ) : FrameAt (pure a : M α) i :=
  fun _ => rfl

theorem frameAt_throw {α : Type} (e : Err) (i : ℕ) : FrameAt (throw e : M α) i :=
  fun _ => rfl

theorem frameAt_bind {α β : Type} {x : M α} {f : α → M β} {i : ℕ}
    (hx : FrameAt x i) (hf : ∀ a, FrameAt (f a) i) : FrameAt (x >>= f) i := by
  intro s
  rw [runM_bind]
  rcases hr : runM x s with ⟨r, s1⟩
  have hx1 : obsByte s1.db i = obsByte s.db i := by
    have := hx s
    rw [hr] at this
    exact this
  cases r with
  | ok a =>
    dsimp only
    rw [hf a s1, hx1]
  | error e =>
    dsimp only
    exact hx1

theorem frameAt_tryCatch {α : Type} {x : M α} {h : Err → M α} {i : ℕ}
    (hx : FrameAt x i) (hh : ∀ e, FrameAt (h e) i) : FrameAt (tryCatch x h) i := by
  intro s
  rw [runM_tryCatch]
  rcases hr : runM x s with ⟨r, s1⟩
  have hx1 : obsByte s1.db i = obsByte s.db i := by
    have := hx s
    rw [hr] at this
    exact this
  cases r with
  | ok a => exact hx1
  | error e =>
    dsimp only
    rw [hh e s1, hx1]

/-- The byte-interval a queued write (and its rollback) can touch, as an
avoidance predicate on the index `i`. -/
def spanOK (w : PWrite) (i : ℕ) : Prop :=
  match w with
  | .real tag _ => ∀ cfg, findCfg ["OPERATION", "INPUTS", "CUSTOM_SOLVENT"] tag = some cfg →
      i < byteOffset cfg ∨ byteOffset cfg + 4 ≤ i
  | .int tag _ => ∀ cfg, findCfg ["OPERATION", "INPUTS"] tag = some cfg →
      i < byteOffset cfg ∨ byteOffset cfg + 2 ≤ i
  | .bool tag _ => ∀ cfg, resolveBoolTag tag = some cfg → i ≠ byteOffset cfg
  | .str tag v ml => ∀ cfg,
      (DB_CONFIG.lookup "INPUTS").bind (fun entries => entries.lookup tag) = some cfg →
      i < byteOffset cfg ∨ byteOffset cfg + (strData v ml).length ≤ i

theorem encodeReal_length {v : ℚ} {data : List ℕ} (h : encodeReal v = some data) :
    data.length = 4 := by
  unfold encodeReal at h
  rcases hm : mkBits v with _ | n <;> rw [hm] at h
  · cases h
  · cases h
    rfl

theorem encodeInt_length {v : ℤ} {data : List ℕ} (h : encodeInt v = some data) :
    data.length = 2 := by
  unfold encodeInt at h
  split at h
  · cases h
  · cases h
    rfl

theorem utf8EncodeCharNat_length_pos (c : Char) : 1 ≤ (utf8EncodeCharNat c).length := by
  unfold utf8EncodeCharNat
  dsimp only
  split_ifs <;> simp

theorem length_le_utf8Flatten (l : List Char) :
    l.length ≤ ((l.map utf8EncodeCharNat).flatten).length := by
  induction l with
  | nil => simp
  | cons c cs ih =>
    have := utf8EncodeCharNat_length_pos c
    simp only [List.map_cons, List.flatten_cons, List.length_append, List.length_cons]
    omega

theorem length_le_utf8Bytes_length (v : String) : v.length ≤ (utf8Bytes v).length :=
  length_le_utf8Flatten v.data

theorem strData_length (value : String) (maxLen : ℕ) :
    (strData value maxLen).length =
      2 + (utf8Bytes value).length + (maxLen - value.length) := by
  simp [strData]
  omega

theorem dbWriteBitSim_obsByte_ne (s : St) (b j : ℕ) (v : Bool) (i : ℕ) (h : i ≠ b) :
    obsByte (dbWriteBitSim s b j v).db i = obsByte s.db i := by
  unfold dbWriteBitSim
  dsimp only
  rw [obsByte_set_ne _ _ _ _ h, obsByte_growTo]

theorem frameAt_modify {f : St → St} {i : ℕ}
    (h : ∀ s, obsByte (f s).db i = obsByte s.db i) : FrameAt (modify f : M Unit) i := by
  intro s
  rw [runM_modify]
  exact h s

theorem frameAt_liftRead {α : Type} {f : St → α × St} {i : ℕ}
    (h : ∀ s, obsByte ((f s).2).db i = obsByte s.db i) : FrameAt (liftRead f) i := by
  intro s
  rw [runM_liftRead]
  exact h s

theorem frameAt_writeReal (tag : String) (v : ℚ) (i : ℕ)
    (h : spanOK (.real tag v) i) : FrameAt (writeReal simClient tag v) i := by
  unfold writeReal
  rcases hcfg : findCfg ["OPERATION", "INPUTS", "CUSTOM_SOLVENT"] tag with _ | cfg
  · exact fun _ => rfl
  · dsimp only
    rcases he : encodeReal v with _ | data
    · exact fun _ => rfl
    · refine frameAt_modify (fun s => ?_)
      refine dbWriteSim_obsByte_out s _ data i ?_
      have := h cfg hcfg
      have hl := encodeReal_length he
      omega

theorem frameAt_writeInt (tag : String) (v : ℤ) (i : ℕ)
    (h : spanOK (.int tag v) i) : FrameAt (writeInt simClient tag v) i := by
  unfold writeInt
  rcases hcfg : findCfg ["OPERATION", "INPUTS"] tag with _ | cfg
  · exact fun _ => rfl
  · dsimp only
    rcases he : encodeInt v with _ | data
    · exact fun _ => rfl
    · refine frameAt_modify (fun s => ?_)
      refine dbWriteSim_obsByte_out s _ data i ?_
      have := h cfg hcfg
      have hl := encodeInt_length he
      omega

theorem frameAt_writeBool (tag : String) (v : Bool) (i : ℕ)
    (h : spanOK (.bool tag v) i) : FrameAt (writeBool simClient tag v) i := by
  unfold writeBool
  rcases hcfg : resolveBoolTag tag with _ | cfg
  · exact fun _ => rfl
  · exact frameAt_modify (fun s => dbWriteBitSim_obsByte_ne s _ _ v i (h cfg hcfg))

theorem frameAt_writeString (tag : String) (v : String) (ml : ℕ) (i : ℕ)
    (h : ∀ cfg,
      (DB_CONFIG.lookup "INPUTS").bind (fun entries => entries.lookup tag) = some cfg →
      i < byteOffset cfg ∨ byteOffset cfg + (strData v ml).length ≤ i) :
    FrameAt (writeString simClient tag v ml) i := by
  unfold writeString
  rcases hcfg : (DB_CONFIG.lookup "INPUTS").bind (fun entries => entries.lookup tag)
    with _ | cfg
  · exact fun _ => rfl
  · dsimp only
    split
    · exact fun _ => rfl
    · split
      · exact fun _ => rfl
      · split
        · exact fun _ => rfl
        · refine frameAt_modify (fun s => ?_)
          refine dbWriteSim_obsByte_out s _ _ i ?_
          have := h cfg hcfg
          omega

theorem frameAt_readReal (tag : String) (i : ℕ) : FrameAt (readReal simClient tag) i := by
  unfold readReal
  rcases hcfg : findCfg ["OPERATION", "INPUTS", "CUSTOM_SOLVENT"] tag with _ | cfg
  · exact fun _ => rfl
  · dsimp only
    refine frameAt_bind (frameAt_liftRead (fun s => dbReadSim_snd_obsByte s _ _ i)) ?_
    intro a
    split
    · exact frameAt_pure _ _
    · exact fun _ => rfl

theorem frameAt_readInt (tag : String) (i : ℕ) : FrameAt (readInt simClient tag) i := by
  unfold readInt
  rcases hcfg : findCfg ["OPERATION", "INPUTS"] tag with _ | cfg
  · exact fun _ => rfl
  · exact frameAt_bind (frameAt_liftRead (fun s => dbReadSim_snd_obsByte s _ _ i))
      (fun a => frameAt_pure _ _)

theorem frameAt_readBool (tag : String) (i : ℕ) : FrameAt (readBool simClient tag) i := by
  unfold readBool
  rcases hcfg : resolveBoolTag tag with _ | cfg
  · exact fun _ => rfl
  · refine frameAt_liftRead (fun s => ?_)
    show obsByte (dbReadBitSim s _ _).2.db i = _
    exact dbReadBitSim_snd_obsByte s _ _ i

theorem frameAt_readString (tag : String) (i : ℕ) : FrameAt (readString simClient tag) i := by
  unfold readString
  rcases hcfg : (DB_CONFIG.lookup "INPUTS").bind (fun entries => entries.lookup tag)
    with _ | cfg
  · exact fun _ => rfl
  · dsimp only
    split
    · exact fun _ => rfl
    · refine frameAt_bind (frameAt_liftRead (fun s => dbReadSim_snd_obsByte s _ _ i)) ?_
      intro header
      dsimp only
      split
      · refine frameAt_bind (frameAt_liftRead (fun s => dbReadSim_snd_obsByte s _ _ i)) ?_
        intro data
        split
        · exact frameAt_pure _ _
        · exact fun _ => rfl
      · exact frameAt_pure _ _

/-! ### Frame reasoning through the transaction layer. -/

theorem strData_empty_le (v : String) (ml : ℕ) :
    (strData "" ml).length ≤ (strData v ml).length := by
  have h1 := length_le_utf8Bytes_length v
  rw [strData_length, strData_length]
  have h2 : (utf8Bytes "").length = 0 := by decide
  have h3 : ("" : String).length = 0 := by decide
  omega

theorem frameAt_doWrite (w : PWrite) (i : ℕ) (h : spanOK w i) :
    FrameAt (doWrite simClient w) i := by
  cases w with
  | real tag v => exact frameAt_writeReal tag v i h
  | int tag v => exact frameAt_writeInt tag v i h
  | bool tag v => exact frameAt_writeBool tag v i h
  | str tag v ml => exact frameAt_writeString tag v ml i h

theorem frameAt_doWrites (ws : List PWrite) (i : ℕ) (h : ∀ w ∈ ws, spanOK w i) :
    FrameAt (doWrites simClient ws) i := by
  induction ws with
  | nil => exact frameAt_pure _ _
  | cons w rest ih =>
    show FrameAt (doWrite simClient w >>= fun _ => doWrites simClient rest) i
    refine frameAt_bind (frameAt_doWrite w i (h w (by simp))) ?_
    intro _
    exact ih (fun w' hw' => h w' (by simp [hw']))

theorem frameAt_verifyWrite (w : PWrite) (i : ℕ) : FrameAt (verifyWrite simClient w) i := by
  cases w with
  | real tag v =>
    refine frameAt_bind (frameAt_readReal tag i) ?_
    intro a
    split <;> exact frameAt_pure _ _
  | int tag v =>
    refine frameAt_bind (frameAt_readInt tag i) ?_
    intro a
    split <;> exact frameAt_pure _ _
  | bool tag v =>
    refine frameAt_bind (frameAt_readBool tag i) ?_
    intro a
    split <;> exact frameAt_pure _ _
  | str tag v ml =>
    refine frameAt_bind (frameAt_readString tag i) ?_
    intro a
    split <;> exact frameAt_pure _ _

theorem frameAt_verifyWrites (ws : List PWrite) (i : ℕ) :
    FrameAt (verifyWrites simClient ws) i := by
  induction ws with
  | nil => exact frameAt_pure _ _
  | cons w rest ih =>
    show FrameAt (verifyWrite simClient w >>= fun e =>
      verifyWrites simClient rest >>= fun es => pure (e ++ es)) i
    refine frameAt_bind (frameAt_verifyWrite w i) ?_
    intro e
    exact frameAt_bind ih (fun es => frameAt_pure _ _)

theorem frameAt_rollbackWrite (w : PWrite) (i : ℕ) (h : spanOK w i) :
    FrameAt (rollbackWrite simClient w) i := by
  cases w with
  | real tag v =>
    refine frameAt_bind (frameAt_writeReal tag 0 i h) ?_
    intro _
    refine frameAt_bind (frameAt_readReal tag i) ?_
    intro a
    split <;> exact frameAt_pure _ _
  | int tag v =>
    refine frameAt_bind (frameAt_writeInt tag 0 i h) ?_
    intro _
    refine frameAt_bind (frameAt_readInt tag i) ?_
    intro a
    split <;> exact frameAt_pure _ _
  | bool tag v =>
    refine frameAt_bind (frameAt_writeBool tag false i h) ?_
    intro _
    refine frameAt_bind (frameAt_readBool tag i) ?_
    intro a
    split <;> exact frameAt_pure _ _
  | str tag v ml =>
    refine frameAt_bind (frameAt_writeString tag "" ml i ?_) ?_
    · intro cfg hcfg
      have h1 := h cfg hcfg
      have h2 := strData_empty_le v ml
      omega
    · intro _
      refine frameAt_bind (frameAt_readString tag i) ?_
      intro a
      split <;> exact frameAt_pure _ _

theorem frameAt_rollbackStep (w : PWrite) (i : ℕ) (h : spanOK w i) :
    FrameAt (rollbackStep simClient w) i :=
  frameAt_tryCatch (frameAt_rollbackWrite w i h) (fun _ => frameAt_pure _ _)

theorem frameAt_rollbackAll (ws : List PWrite) (i : ℕ) (h : ∀ w ∈ ws, spanOK w i) :
    FrameAt (rollbackAll simClient ws) i := by
  induction ws with
  | nil => exact frameAt_pure _ _
  | cons w rest ih =>
    show FrameAt (rollbackStep simClient w >>= fun e =>
      rollbackAll simClient rest >>= fun es => pure (e ++ es)) i
    refine frameAt_bind (frameAt_rollbackStep w i (h w (by simp))) ?_
    intro e
    refine frameAt_bind (ih (fun w' hw' => h w' (by simp [hw']))) ?_
    intro es
    exact frameAt_pure _ _

theorem frameAt_txCommit (tx : Tx) (i : ℕ) (h : ∀ w ∈ tx.writes, spanOK w i) :
    FrameAt (txCommit simClient tx) i := by
  unfold txCommit
  split
  · exact frameAt_pure _ _
  · refine frameAt_tryCatch ?_ ?_
    · refine frameAt_bind (frameAt_doWrites tx.writes i h) ?_
      intro _
      refine frameAt_bind (frameAt_verifyWrites tx.writes i) ?_
      intro errors
      split
      · exact fun _ => rfl
      · exact frameAt_pure _ _
    · intro e
      refine frameAt_bind (frameAt_rollbackAll tx.writes i h) ?_
      intro rbErrs
      split
      · exact fun _ => rfl
      · exact fun _ => rfl

/-! ### The writes queued by `write_parameters_to_plc`. -/

/-- The custom-solvent name carried by a payload (`''` when absent). -/
def payloadName (payload : InputPayload) : String :=
  match payload.custom_solvent with
  | some cs => cs.name
  | none => ""

theorem writeParamsQueue_writes_eq {payload : InputPayload} {tx : Tx}
    (h : writeParamsQueue payload {} = .ok tx) :
    ∃ name vis sens mol,
      (name = payloadName payload ∨ name = "") ∧
      tx.writes =
        [.int "OPERATION_MODE" payload.operation_mode,
         .real "r_TFR" payload.tfr,
         .int "i_FRR" payload.frr,
         .real "r_TARGET_VOLUME" payload.target_volume,
         .real "r_TEMPERATURE" payload.temperature,
         .int "i_CHIP_ID" payload.chip_id,
         .int "i_MANIFOLD_ID" payload.manifold_id,
         .real "r_LAB_PRESSURE" payload.lab_pressure,
         .int "i_ORG_SOLVENT_ID" payload.org_solvent_id,
         .str "s_CUSTOM_ORG_SOLVENT" name 16,
         .real "r_VISCOSITY" vis,
         .real "r_SENSITIVITY" sens,
         .real "r_MOLAR_VOLUME" mol] := by
  unfold writeParamsQueue at h
  by_cases h4 : payload.org_solvent_id = 4
  · rw [if_pos h4] at h
    rcases hcs : payload.custom_solvent with _ | cs <;> rw [hcs] at h
    · cases h
    · by_cases hlen : 16 < cs.name.length
      · simp only [txWriteString] at h
        rw [if_pos hlen] at h
        cases h
      · simp only [txWriteString] at h
        rw [if_neg hlen] at h
        simp only [txWriteInt, txWriteReal] at h
        refine ⟨cs.name, cs.viscosity, cs.sensitivity, cs.molar_volume,
          Or.inl (by simp [payloadName, hcs]), ?_⟩
        cases h
        simp
  · rw [if_neg h4] at h
    simp only [txWriteString] at h
    rw [if_neg (by simp)] at h
    simp only [txWriteInt, txWriteReal] at h
    refine ⟨"", 0, 0, 0, Or.inr rfl, ?_⟩
    cases h
    simp

theorem writeParamsQueue_spanOK {payload : InputPayload} {tx : Tx} {i : ℕ}
    (h : writeParamsQueue payload {} = .ok tx)
    (hname : (utf8Bytes (payloadName payload)).length ≤ 16)
    (hi : i = 200 ∨ i = 201 ∨ 258 ≤ i) :
    ∀ w ∈ tx.writes, spanOK w i := by
  obtain ⟨name, vis, sens, mol, hname2, hws⟩ := writeParamsQueue_writes_eq h
  have hnlen : (utf8Bytes name).length ≤ 16 := by
    rcases hname2 with rfl | rfl
    · exact hname
    · decide
  intro w hw
  rw [hws] at hw
  simp only [List.mem_cons, List.not_mem_nil, or_false] at hw
  rcases hw with rfl|rfl|rfl|rfl|rfl|rfl|rfl|rfl|rfl|rfl|rfl|rfl|rfl
  · intro cfg hcfg
    have h1 : (findCfg ["OPERATION", "INPUTS"] "OPERATION_MODE").map byteOffset
        = some 198 := by decide
    rw [hcfg] at h1
    simp at h1
    omega
  · intro cfg hcfg
    have h1 : (findCfg ["OPERATION", "INPUTS", "CUSTOM_SOLVENT"] "r_TFR").map byteOffset
        = some 204 := by decide
    rw [hcfg] at h1
    simp at h1
    omega
  · intro cfg hcfg
    have h1 : (findCfg ["OPERATION", "INPUTS"] "i_FRR").map byteOffset
        = some 208 := by decide
    rw [hcfg] at h1
    simp at h1
    omega
  · intro cfg hcfg
    have h1 : (findCfg ["OPERATION", "INPUTS", "CUSTOM_SOLVENT"] "r_TARGET_VOLUME").map
        byteOffset = some 210 := by decide
    rw [hcfg] at h1
    simp at h1
    omega
  · intro cfg hcfg
    have h1 : (findCfg ["OPERATION", "INPUTS", "CUSTOM_SOLVENT"] "r_TEMPERATURE").map
        byteOffset = some 214 := by decide
    rw [hcfg] at h1
    simp at h1
    omega
  · intro cfg hcfg
    have h1 : (findCfg ["OPERATION", "INPUTS"] "i_CHIP_ID").map byteOffset
        = some 218 := by decide
    rw [hcfg] at h1
    simp at h1
    omega
  · intro cfg hcfg
    have h1 : (findCfg ["OPERATION", "INPUTS"] "i_MANIFOLD_ID").map byteOffset
        = some 220 := by decide
    rw [hcfg] at h1
    simp at h1
    omega
  · intro cfg hcfg
    have h1 : (findCfg ["OPERATION", "INPUTS", "CUSTOM_SOLVENT"] "r_LAB_PRESSURE").map
        byteOffset = some 242 := by decide
    rw [hcfg] at h1
    simp at h1
    omega
  · intro cfg hcfg
    have h1 : (findCfg ["OPERATION", "INPUTS"] "i_ORG_SOLVENT_ID").map byteOffset
        = some 222 := by decide
    rw [hcfg] at h1
    simp at h1
    omega
  · intro cfg hcfg
    have h1 : ((DB_CONFIG.lookup "INPUTS").bind
        (fun entries => entries.lookup "s_CUSTOM_ORG_SOLVENT")).map byteOffset
        = some 224 := by decide
    rw [hcfg] at h1
    simp at h1
    have h2 : (strData name 16).length ≤ 34 := by
      rw [strData_length]
      omega
    omega
  · intro cfg hcfg
    have h1 : (findCfg ["OPERATION", "INPUTS", "CUSTOM_SOLVENT"] "r_VISCOSITY").map
        byteOffset = some 246 := by decide
    rw [hcfg] at h1
    simp at h1
    omega
  · intro cfg hcfg
    have h1 : (findCfg ["OPERATION", "INPUTS", "CUSTOM_SOLVENT"] "r_SENSITIVITY").map
        byteOffset = some 250 := by decide
    rw [hcfg] at h1
    simp at h1
    omega
  · intro cfg hcfg
    have h1 : (findCfg ["OPERATION", "INPUTS", "CUSTOM_SOLVENT"] "r_MOLAR_VOLUME").map
        byteOffset = some 254 := by decide
    rw [hcfg] at h1
    simp at h1
    omega

theorem frameAt_writeParametersToPlc (payload : InputPayload) (i : ℕ)
    (hname : (utf8Bytes (payloadName payload)).length ≤ 16)
    (hi : i = 200 ∨ i = 201 ∨ 258 ≤ i) :
    FrameAt (writeParametersToPlc simClient payload) i := by
  unfold writeParametersToPlc
  rcases hq : writeParamsQueue payload {} with e | tx
  · exact fun _ => rfl
  · dsimp only
    refine frameAt_bind (frameAt_txCommit tx i (writeParamsQueue_spanOK hq hname hi)) ?_
    intro _
    exact frameAt_pure _ _

/-! ### Claim C5: the frame effect of `write_parameters_to_plc`. -/

/-- A nominal payload (RUN defaults, stock solvent): TFR 1, FRR 5,
volume 10, temperature 25, chip 0, manifold 0, lab pressure 1000. -/
def okPayload : InputPayload :=
  { tfr := 1, frr := 5, target_volume := 10, temperature := 25,
    chip_id := 0, manifold_id := 0, lab_pressure := 1000,
    org_solvent_id := 0 }

/-- Same payload with a custom solvent whose 16-character name is 16 euro
signs; `len(name) == 16 == max_len`, so the queue-time length check passes,
but the UTF-8 encoding is 48 bytes long. -/
def euroPayload : InputPayload :=
  { tfr := 1, frr := 5, target_volume := 10, temperature := 25,
    chip_id := 0, manifold_id := 0, lab_pressure := 1000,
    org_solvent_id := 4,
    custom_solvent := some ⟨String.mk (List.replicate 16 '€'), 1, 1, 1⟩ }

/-- C5 counterexample: the claim is false for `euroPayload`. The name passes
`write_string`'s `len(value) <= max_len` check (16 characters), but
`value.encode('utf-8')` is 48 bytes, and the bytearray slice assignment in
`_write_string` inserts rather than overwrites, so the string field's write
runs past byte 258 and flips `COMMANDS_RUN.b_STOP` (byte 258, bit 3) from
false to true. -/
theorem C5_custom_name_overruns_into_command_bits :
    (payloadName euroPayload).length = 16 ∧
    (runM (readBool simClient "COMMANDS_RUN.b_STOP") initSt).1 = .ok false ∧
    (runM (readBool simClient "COMMANDS_RUN.b_STOP")
        (runM (writeParametersToPlc simClient euroPayload) initSt).2).1 = .ok true :=
  ⟨by decide, by decide, by decide⟩

/-- C5 (amended): if the custom-solvent name (or the empty string written
for stock solvents) UTF-8-encodes to at most 16 bytes — in particular for
every pure-ASCII name, where byte length equals the checked character
length — then `write_parameters_to_plc` never changes the stored
MACHINE_MODE value nor any of the twelve command bits, whether the commit
succeeds, rolls back, or fails at queue time. -/
theorem C5_frame_machine_mode_and_commands (payload : InputPayload) (s : St)
    (hname : (utf8Bytes (payloadName payload)).length ≤ 16) :
    (runM (readInt simClient "MACHINE_MODE")
        (runM (writeParametersToPlc simClient payload) s).2).1 =
      (runM (readInt simClient "MACHINE_MODE") s).1 ∧
    ∀ mode cmd,
      (runM (readBool simClient (modeKey mode ++ "." ++ cmdKey cmd))
          (runM (writeParametersToPlc simClient payload) s).2).1 =
        (runM (readBool simClient (modeKey mode ++ "." ++ cmdKey cmd)) s).1 := by
  have h200 : obsByte ((runM (writeParametersToPlc simClient payload) s).2).db 200 =
      obsByte s.db 200 :=
    frameAt_writeParametersToPlc payload 200 hname (Or.inl rfl) s
  have h201 : obsByte ((runM (writeParametersToPlc simClient payload) s).2).db 201 =
      obsByte s.db 201 :=
    frameAt_writeParametersToPlc payload 201 hname (Or.inr (Or.inl rfl)) s
  have hcmd : ∀ mode : MachineMode,
      obsByte ((runM (writeParametersToPlc simClient payload) s).2).db (modeByte mode) =
        obsByte s.db (modeByte mode) := fun mode =>
    frameAt_writeParametersToPlc payload (modeByte mode) hname
      (Or.inr (Or.inr (by cases mode <;> decide))) s
  constructor
  · have hcfg : findCfg ["OPERATION", "INPUTS"] "MACHINE_MODE" =
        some ⟨200, .INT, none⟩ := by decide
    rw [runM_readInt _ hcfg, runM_readInt s hcfg]
    rw [show simClient.dbRead = dbReadSim from rfl, dbReadSim_fst, dbReadSim_fst]
    rw [show byteOffset (⟨200, .INT, none⟩ : Cfg) = 200 from by decide]
    simp [List.range_succ, h200, h201]
  · intro mode cmd
    rw [readBool_cmd_run, readBool_cmd_run]
    simp [obsBit, hcmd mode]

/-- C5 amended-theorem witness: `okPayload` writes the empty custom name
(0 UTF-8 bytes), and from the fresh simulator state `COMMANDS_RUN.b_STOP`
reads the same before and after the call. -/
theorem C5_witness :
    (utf8Bytes (payloadName okPayload)).length ≤ 16 ∧
    (runM (readBool simClient ("COMMANDS_RUN" ++ "." ++ "b_STOP"))
        (runM (writeParametersToPlc simClient okPayload) initSt).2).1 =
      (runM (readBool simClient ("COMMANDS_RUN" ++ "." ++ "b_STOP")) initSt).1 :=
  ⟨by decide,
   (C5_frame_machine_mode_and_commands okPayload initSt (by decide)).2 .RUN .STOP⟩

/-! ### Claim C9: the binary32 round-trip.  First, a characterization of
`expCount`: its filter predicate is downward closed, so the filtered list is
an initial segment of `List.range`. -/

theorem pred_down {P : ℕ → Bool} (hm : ∀ k, P (k+1) = true → P k = true) :
    ∀ d k, P (k + d) = true → P k = true := by
  intro d
  induction d with
  | zero => intro k h; exact h
  | succ m ih =>
    intro k h
    exact ih k (hm (k + m) h)

theorem filter_range_monotone_eq {P : ℕ → Bool}
    (hm : ∀ k, P (k+1) = true → P k = true) :
    ∀ N, (List.range N).filter P = List.range ((List.range N).filter P).length := by
  intro N
  induction N with
  | zero => rfl
  | succ n ih =>
    rcases hPn : P n with _ | _
    · rw [List.range_succ, List.filter_append,
        show List.filter P [n] = [] from by simp [hPn], List.append_nil]
      exact ih
    · have hall : ∀ k ∈ List.range n, P k = true := by
        intro k hk
        rw [List.mem_range] at hk
        exact pred_down hm (n - k) k (by rw [Nat.add_sub_cancel' (le_of_lt hk)]; exact hPn)
      have hfull : (List.range (n+1)).filter P = List.range (n+1) := by
        rw [List.range_succ, List.filter_append, List.filter_eq_self.mpr hall,
          show List.filter P [n] = [n] from by simp [hPn], ← List.range_succ]
      rw [hfull]
      congr 1
      exact (List.length_range _).symm

theorem mem_iff_lt_length_of_monotone {P : ℕ → Bool}
    (hm : ∀ k, P (k+1) = true → P k = true) (N k : ℕ) (hk : k < N) :
    P k = true ↔ k < ((List.range N).filter P).length := by
  constructor
  · intro h
    have hmem : k ∈ (List.range N).filter P := by
      rw [List.mem_filter, List.mem_range]
      exact ⟨hk, h⟩
    rw [filter_range_monotone_eq hm N, List.mem_range] at hmem
    exact hmem
  · intro h
    have hmem : k ∈ (List.range N).filter P := by
      rw [filter_range_monotone_eq hm N, List.mem_range]
      exact h
    exact (List.mem_filter.mp hmem).2

/-- The `expCount` filter test `a.den * 2^k ≤ a.num.toNat * 2^125` is, for
positive `a`, exactly the rational comparison `2^(k-125) ≤ a`. -/
theorem expCount_pred_iff (a : ℚ) (ha : 0 < a) (k : ℕ) :
    (a.den * 2^k ≤ a.num.toNat * 2^125) ↔ (2:ℚ)^((k:ℤ) - 125) ≤ a := by
  have hnum : 0 < a.num := Rat.num_pos.mpr ha
  have hden : 0 < (a.den : ℚ) := by positivity
  have had : a * (a.den : ℚ) = (a.num : ℚ) :=
    (eq_div_iff (ne_of_gt hden)).mp (Rat.num_div_den a).symm
  have htn : ((a.num.toNat : ℕ) : ℚ) = ((a.num : ℤ) : ℚ) := by
    exact_mod_cast congrArg (fun z : ℤ => (z : ℚ)) (Int.toNat_of_nonneg (le_of_lt hnum))
  have h1 : ((2:ℚ)^((k:ℤ) - 125) ≤ a) ↔ ((2:ℚ)^k ≤ a * 2^125) := by
    rw [zpow_sub₀ (by norm_num : (2:ℚ) ≠ 0), zpow_natCast,
      show ((2:ℚ)^(125:ℤ)) = 2^(125:ℕ) from by norm_num,
      div_le_iff₀ (by positivity)]
  rw [h1]
  constructor
  · intro h
    have hc : (a.den : ℚ) * 2^k ≤ (a.num.toNat : ℚ) * 2^125 := by exact_mod_cast h
    rw [htn] at hc
    have heq : ((a.num : ℤ) : ℚ) * 2^125 = (a.den : ℚ) * (a * 2^125) := by
      rw [show ((a.num : ℤ) : ℚ) = a * (a.den : ℚ) from had.symm]
      ring
    rw [heq] at hc
    exact le_of_mul_le_mul_left hc hden
  · intro h
    have hc : (a.den : ℚ) * 2^k ≤ (a.den : ℚ) * (a * 2^125) :=
      mul_le_mul_of_nonneg_left h (le_of_lt hden)
    have heq : (a.den : ℚ) * (a * 2^125) = ((a.num : ℤ) : ℚ) * 2^125 := by
      rw [show ((a.num : ℤ) : ℚ) = a * (a.den : ℚ) from had.symm]
      ring
    rw [heq, ← htn] at hc
    exact_mod_cast hc

/-- For `0 < a ≤ 10^6`: `k < expCount a` iff `2^(k-125) ≤ a`, and
`expCount a ≤ 145`. -/
theorem expCount_char (a : ℚ) (ha : 0 < a) (ha2 : a ≤ 1000000) :
    (∀ k : ℕ, k < 255 → ((2:ℚ)^((k:ℤ) - 125) ≤ a ↔ k < expCount a)) ∧
      expCount a ≤ 145 := by
  have hm : ∀ k : ℕ,
      (decide (a.den * 2^(k+1) ≤ a.num.toNat * 2^125)) = true →
      (decide (a.den * 2^k ≤ a.num.toNat * 2^125)) = true := by
    intro k h
    rw [decide_eq_true_iff] at h ⊢
    have : a.den * 2^k ≤ a.den * 2^(k+1) := by
      have : (2:ℕ)^k ≤ 2^(k+1) := Nat.pow_le_pow_right (by norm_num) (by omega)
      exact Nat.mul_le_mul_left _ this
    omega
  have hiff : ∀ k : ℕ, k < 255 → ((2:ℚ)^((k:ℤ) - 125) ≤ a ↔ k < expCount a) := by
    intro k hk
    rw [← expCount_pred_iff a ha k]
    have := @mem_iff_lt_length_of_monotone
      (fun k => decide (a.den * 2^k ≤ a.num.toNat * 2^125)) hm 255 k hk
    rw [decide_eq_true_iff] at this
    exact this
  refine ⟨hiff, ?_⟩
  by_contra hgt
  push_neg at hgt
  have h145 : (2:ℚ)^(((145:ℕ):ℤ) - 125) ≤ a := by
    rw [hiff 145 (by norm_num)]
    omega
  norm_num at h145
  linarith

/-- Decoding the packed word `s*2^31 + (c*2^23 + mm)` (sign, the exponent
count, and a significand that may carry into the exponent field on rounding)
yields `±mm * 2^(c-149)`. -/
theorem decodeReal_fields (s c mm : ℕ) (hs : s ≤ 1) (hc : c ≤ 150) (hmm : mm ≤ 2^24)
    (hlow : c = 0 ∨ 2^23 ≤ mm) :
    decodeReal (bytesOfWord (s * 2^31 + (c * 2^23 + mm))) =
      some ((if s = 1 then (-1:ℚ) else 1) * ((mm : ℚ) * (2:ℚ)^((c:ℤ) - 149))) := by
  have hn : s * 2^31 + (c * 2^23 + mm) < 2^32 := by omega
  unfold decodeReal
  rw [wordOfBytes_bytesOfWord _ hn]
  dsimp only
  have hsv : (s * 2^31 + (c * 2^23 + mm)) / 2^31 = s := by omega
  rcases Nat.lt_or_ge mm (2^23) with hA | hB
  · have hc0 : c = 0 := by
      rcases hlow with h | h
      · exact h
      · omega
    subst hc0
    have he : (s * 2^31 + (0 * 2^23 + mm)) / 2^23 % 256 = 0 := by omega
    have hf : (s * 2^31 + (0 * 2^23 + mm)) % 2^23 = mm := by omega
    rw [he, hf, hsv, if_neg (by norm_num), if_pos rfl]
    norm_num
  · rcases Nat.lt_or_ge mm (2^24) with hB2 | hC2
    · have he : (s * 2^31 + (c * 2^23 + mm)) / 2^23 % 256 = c + 1 := by omega
      have hf : (s * 2^31 + (c * 2^23 + mm)) % 2^23 = mm - 2^23 := by omega
      have h1 : ((2^23 + (mm - 2^23) : ℕ) : ℚ) = (mm : ℚ) := by
        have h1n : (2^23 + (mm - 2^23) : ℕ) = mm := by omega
        rw [h1n]
      have h2 : (((c+1 : ℕ) : ℤ) - 150) = ((c : ℤ) - 149) := by push_cast; ring
      rw [he, hf, hsv]
      rw [if_neg (show ¬(c + 1 = 255) from by omega)]
      rw [if_neg (show ¬(c + 1 = 0) from by omega)]
      rw [h1, h2]
    · have hC : mm = 2^24 := by omega
      subst hC
      have he : (s * 2^31 + (c * 2^23 + 2^24)) / 2^23 % 256 = c + 2 := by omega
      have hf : (s * 2^31 + (c * 2^23 + 2^24)) % 2^23 = 0 := by omega
      have h2 : (((c+2 : ℕ) : ℤ) - 150) = ((c : ℤ) - 149) + 1 := by push_cast; ring
      have h3 : ((2^23 + 0 : ℕ) : ℚ) * ((2:ℚ)^((c:ℤ) - 149) * (2:ℚ)^(1:ℤ)) =
          ((2^24 : ℕ) : ℚ) * (2:ℚ)^((c:ℤ) - 149) := by
        push_cast
        rw [show ((2:ℚ)^(1:ℤ)) = 2 from by norm_num]
        ring
      rw [he, hf, hsv]
      rw [if_neg (show ¬(c + 2 = 255) from by omega)]
      rw [if_neg (show ¬(c + 2 = 0) from by omega)]
      rw [h2, zpow_add₀ (by norm_num : (2:ℚ) ≠ 0), h3]

/-- `struct.pack('>f', v)` succeeds for `|v| ≤ 10^6` and the packed word's
significand is within half an ulp (`2^(c-149)/2`) of `|v|`. -/
theorem mkBits_eval (v : ℚ) (h0 : v ≠ 0) (hv : |v| ≤ 1000000) :
    ∃ c mm : ℕ, mkBits v = some ((if v < 0 then 1 else 0) * 2^31 + (c * 2^23 + mm)) ∧
      c ≤ 145 ∧ mm ≤ 2^24 ∧ (c = 0 ∨ 2^23 ≤ mm) ∧
      abs ((mm : ℚ) * (2:ℚ)^((c:ℤ) - 149) - |v|) ≤ (2:ℚ)^((c:ℤ) - 149) / 2 := by
  have ha : 0 < |v| := abs_pos.mpr h0
  obtain ⟨hiff, hc145⟩ := expCount_char |v| ha hv
  set a := |v| with ha_def
  set c := expCount a with hc_def
  set t : ℤ := (c : ℤ) - 149 with ht_def
  have h2t : (0:ℚ) < (2:ℚ)^t := by positivity
  set x := a / (2:ℚ)^t with hx_def
  have hx_pos : 0 ≤ x := by positivity
  set m := roundEven x with hm_def
  have hm0 : 0 ≤ m := roundEven_nonneg x hx_pos
  have herr : |(m:ℚ) - x| ≤ 1/2 := abs_roundEven_sub x
  have hupper : a < (2:ℚ)^((c:ℤ) - 125) := by
    by_contra hge
    push_neg at hge
    have := (hiff c (by omega)).mp hge
    omega
  have h24 : (2:ℚ)^((24:ℤ)) * (2:ℚ)^t = (2:ℚ)^((c:ℤ) - 125) := by
    rw [← zpow_add₀ (by norm_num : (2:ℚ) ≠ 0)]
    congr 1
    omega
  have hx_up : x < (2:ℚ)^((24:ℤ)) := by
    rw [hx_def, div_lt_iff₀ h2t, h24]
    exact hupper
  have hmq_up : (m:ℚ) ≤ x + 1/2 := by
    have := abs_le.mp herr
    linarith
  have h2p24 : ((2:ℚ))^((24:ℤ)) = ((2^24 : ℤ) : ℚ) := by norm_num
  have hm_up : m ≤ 2^24 := by
    by_contra hgt
    push_neg at hgt
    have h3 : (2^24 + 1 : ℤ) ≤ m := by omega
    have h4 : ((2^24 + 1 : ℤ) : ℚ) ≤ (m : ℚ) := by exact_mod_cast h3
    rw [h2p24] at hx_up
    push_cast at h4 hx_up
    linarith
  have hlow : c = 0 ∨ (2:ℤ)^23 ≤ m := by
    rcases Nat.eq_zero_or_pos c with h | h
    · exact Or.inl h
    · right
      have hcm1 : (2:ℚ)^(((c-1 : ℕ) : ℤ) - 125) ≤ a := (hiff (c-1) (by omega)).mpr (by omega)
      have hcast : ((c-1 : ℕ) : ℤ) - 125 = (c:ℤ) - 126 := by omega
      rw [hcast] at hcm1
      have h23 : (2:ℚ)^((23:ℤ)) * (2:ℚ)^t = (2:ℚ)^((c:ℤ) - 126) := by
        rw [← zpow_add₀ (by norm_num : (2:ℚ) ≠ 0)]
        congr 1
        omega
      have hx_low : (2:ℚ)^((23:ℤ)) ≤ x := by
        rw [hx_def, le_div_iff₀ h2t, h23]
        exact hcm1
      have h1 : x - 1/2 ≤ (m:ℚ) := by
        have := abs_le.mp herr
        linarith
      by_contra hlt
      push_neg at hlt
      have h3 : m ≤ 2^23 - 1 := by omega
      have h4 : (m : ℚ) ≤ ((2^23 - 1 : ℤ) : ℚ) := by exact_mod_cast h3
      have h2p23 : ((2:ℚ))^((23:ℤ)) = ((2^23 : ℤ) : ℚ) := by norm_num
      rw [h2p23] at hx_low
      push_cast at h4 hx_low
      linarith
  have hmtn : m.toNat ≤ 2^24 := by omega
  refine ⟨c, m.toNat, ?_, by omega, hmtn, ?_, ?_⟩
  · unfold mkBits
    rw [if_neg h0]
    dsimp only
    rw [← ha_def, ← hc_def, ← ht_def, ← hx_def, ← hm_def]
    rw [if_neg (by omega)]
  · rcases hlow with h | h
    · exact Or.inl h
    · exact Or.inr (by omega)
  · have hmt : ((m.toNat : ℕ) : ℚ) = (m : ℚ) := by
      have := Int.toNat_of_nonneg hm0
      exact_mod_cast congrArg (fun z : ℤ => (z : ℚ)) this
    rw [hmt, ← ht_def]
    have hsplit : (m:ℚ) * 2^t - a = ((m:ℚ) - x) * 2^t := by
      rw [hx_def]
      field_simp
    rw [hsplit, abs_mul, abs_of_pos h2t]
    calc |(m:ℚ) - x| * 2^t ≤ (1/2) * 2^t :=
          mul_le_mul_of_nonneg_right herr (le_of_lt h2t)
    _ = 2^t / 2 := by ring

/-- End-to-end codec fact: for `|v| ≤ 10^6` the pack/unpack round trip
succeeds and is within `1/32` (half an ulp at the top of the range). -/
theorem encode_decode_real (v : ℚ) (hv : |v| ≤ 1000000) :
    ∃ data w, encodeReal v = some data ∧ decodeReal data = some w ∧ |w - v| ≤ 1/32 := by
  by_cases h0 : v = 0
  · subst h0
    refine ⟨[0,0,0,0], 0, by decide, by decide, by norm_num⟩
  · obtain ⟨c, mm, hbits, hc, hmm, hlow, herr⟩ := mkBits_eval v h0 hv
    have hs : (if v < 0 then 1 else 0) ≤ 1 := by split <;> norm_num
    have hdec := decodeReal_fields (if v < 0 then 1 else 0) c mm hs (by omega) hmm hlow
    refine ⟨_, _, ?_, hdec, ?_⟩
    · show (mkBits v).map bytesOfWord = _
      rw [hbits]
      rfl
    · have hscale : (2:ℚ)^((c:ℤ) - 149) ≤ (2:ℚ)^((-4 : ℤ)) :=
        zpow_le_zpow_right₀ (by norm_num : (1:ℚ) ≤ 2) (by omega)
      have h2 : (2:ℚ)^((-4:ℤ)) = 1/16 := by norm_num
      rw [h2] at hscale
      by_cases hneg : v < 0
      · rw [if_pos hneg]
        have hav : |v| = -v := abs_of_neg hneg
        calc |(-1) * ((mm:ℚ) * (2:ℚ)^((c:ℤ)-149)) - v|
            = abs ((mm:ℚ) * (2:ℚ)^((c:ℤ)-149) - |v|) := by
              rw [hav, ← abs_neg]
              ring_nf
        _ ≤ (2:ℚ)^((c:ℤ)-149)/2 := herr
        _ ≤ (1/16)/2 := by linarith
        _ ≤ 1/32 := by norm_num
      · rw [if_neg hneg]
        have hav : |v| = v := abs_of_nonneg (not_lt.mp hneg)
        calc |1 * ((mm:ℚ) * (2:ℚ)^((c:ℤ)-149)) - v|
            = abs ((mm:ℚ) * (2:ℚ)^((c:ℤ)-149) - |v|) := by
              rw [hav]
              ring_nf
        _ ≤ (2:ℚ)^((c:ℤ)-149)/2 := herr
        _ ≤ (1/16)/2 := by linarith
        _ ≤ 1/32 := by norm_num

/-- C9 counterexample to the stated `1e-6` tolerance: `63999939/64`
(= 999999.046875, inside `[-1e6, 1e6]`) reads back as `15999985/16`
(= 999999.0625); the round-trip error is `1/64`, four orders of magnitude
above the claimed tolerance. -/
theorem C9_tolerance_counterexample :
    |(63999939 : ℚ)/64| ≤ 1000000 ∧
    (runM (readReal simClient "r_TFR")
        (runM (writeReal simClient "r_TFR" ((63999939 : ℚ)/64)) initSt).2).1 =
      .ok ((15999985 : ℚ)/16) ∧
    TOL < |(15999985 : ℚ)/16 - (63999939 : ℚ)/64| :=
  ⟨by decide, by decide, by decide⟩

/-- C9 (amended): writing any `v` with `|v| ≤ 10^6` to a REAL tag and
reading it back succeeds and returns a value within `1/32` of `v` — the
correct half-ulp bound for binary32 at the top of that range; the claimed
`1e-6` tolerance is unachievable for a 24-bit significand (see the
counterexample), and nothing in the code enforces it on the round trip. -/
theorem C9_real_roundtrip_half_ulp (v : ℚ) (s : St) (hv : |v| ≤ 1000000) :
    ∃ w : ℚ,
      (runM (readReal simClient "r_TFR")
          (runM (writeReal simClient "r_TFR" v) s).2).1 = .ok w ∧
      |w - v| ≤ 1/32 := by
  obtain ⟨data, w, henc, hdec, herr⟩ := encode_decode_real v hv
  have hcfg : findCfg ["OPERATION", "INPUTS", "CUSTOM_SOLVENT"] "r_TFR" =
      some ⟨204, .REAL, none⟩ := by decide
  refine ⟨w, ?_, herr⟩
  rw [runM_writeReal s hcfg henc]
  dsimp only
  rw [runM_readReal _ hcfg]
  dsimp only
  rw [show simClient.dbWrite = dbWriteSim from rfl,
    show simClient.dbRead = dbReadSim from rfl]
  rw [show byteOffset (⟨204, .REAL, none⟩ : Cfg) = 204 from by decide]
  rw [show (4:ℕ) = data.length from (encodeReal_length henc).symm,
    dbReadSim_after_write]
  rw [hdec]

/-- C9 amended-theorem witness at `v = 1` from the fresh simulator state. -/
theorem C9_witness :
    |(1:ℚ)| ≤ 1000000 ∧
    ∃ w : ℚ,
      (runM (readReal simClient "r_TFR")
          (runM (writeReal simClient "r_TFR" 1) initSt).2).1 = .ok w ∧
      |w - 1| ≤ 1/32 :=
  ⟨by decide, C9_real_roundtrip_half_ulp 1 initSt (by decide)⟩

/-! ### Claim C1: transaction rollback atomicity.

A queued write is *valid* when its tag resolves in the registry to an entry
of the matching kind (for strings: the one STRING tag, with the `max_len`
the callers pass).  The rollback loop writes each kind's neutral value; for
valid writes we show every queued tag reads back neutral after a failed
commit. -/

def ValidWrite : PWrite → Bool
  | .real tag _ =>
    match findCfg ["OPERATION", "INPUTS", "CUSTOM_SOLVENT"] tag with
    | some cfg => decide (cfg.ty = TagKind.REAL)
    | none => false
  | .int tag _ =>
    match findCfg ["OPERATION", "INPUTS"] tag with
    | some cfg => decide (cfg.ty = TagKind.INT)
    | none => false
  | .bool tag _ =>
    match resolveBoolTag tag with
    | some cfg => decide (cfg.ty = TagKind.BOOL)
    | none => false
  | .str tag _ maxLen => decide (tag = "s_CUSTOM_ORG_SOLVENT") && decide (maxLen = 16)

theorem ValidWrite_real {tag : String} {v : ℚ} (h : ValidWrite (.real tag v) = true) :
    ∃ cfg, findCfg ["OPERATION", "INPUTS", "CUSTOM_SOLVENT"] tag = some cfg ∧
      cfg.ty = TagKind.REAL := by
  unfold ValidWrite at h
  dsimp only at h
  split at h
  · exact ⟨_, by assumption, of_decide_eq_true h⟩
  · cases h

theorem ValidWrite_int {tag : String} {v : ℤ} (h : ValidWrite (.int tag v) = true) :
    ∃ cfg, findCfg ["OPERATION", "INPUTS"] tag = some cfg ∧ cfg.ty = TagKind.INT := by
  unfold ValidWrite at h
  dsimp only at h
  split at h
  · exact ⟨_, by assumption, of_decide_eq_true h⟩
  · cases h

theorem ValidWrite_bool {tag : String} {v : Bool} (h : ValidWrite (.bool tag v) = true) :
    ∃ cfg, resolveBoolTag tag = some cfg ∧ cfg.ty = TagKind.BOOL := by
  unfold ValidWrite at h
  dsimp only at h
  split at h
  · exact ⟨_, by assumption, of_decide_eq_true h⟩
  · cases h

theorem ValidWrite_str {tag value : String} {ml : ℕ}
    (h : ValidWrite (.str tag value ml) = true) :
    tag = "s_CUSTOM_ORG_SOLVENT" ∧ ml = 16 := by
  unfold ValidWrite at h
  dsimp only at h
  rw [Bool.and_eq_true] at h
  exact ⟨of_decide_eq_true h.1, of_decide_eq_true h.2⟩

/-- Post-rollback neutrality, observation-level: the write's span holds zero
bytes (for the string tag: the stored actual-length byte 225 is zero), its
bit reads false. -/
def NeutralObs (s : St) : PWrite → Prop
  | .real tag _ => ∀ cfg, findCfg ["OPERATION", "INPUTS", "CUSTOM_SOLVENT"] tag = some cfg →
      ∀ k, k < 4 → obsByte s.db (byteOffset cfg + k) = 0
  | .int tag _ => ∀ cfg, findCfg ["OPERATION", "INPUTS"] tag = some cfg →
      ∀ k, k < 2 → obsByte s.db (byteOffset cfg + k) = 0
  | .bool tag _ => ∀ cfg, resolveBoolTag tag = some cfg →
      obsBit s.db (byteOffset cfg) (bitOffset cfg) = false
  | .str _ _ _ => obsByte s.db 225 = 0

/-- Kind-specific neutral read-back (`0.0` / `0` / `False` / `''`). -/
def ReadsNeutral (s : St) : PWrite → Prop
  | .real tag _ => (runM (readReal simClient tag) s).1 = .ok 0
  | .int tag _ => (runM (readInt simClient tag) s).1 = .ok 0
  | .bool tag _ => (runM (readBool simClient tag) s).1 = .ok false
  | .str tag _ _ => (runM (readString simClient tag) s).1 = .ok ""

/-! Every configuration a tag can resolve to is one of the registry's
entries, so kind-specific facts about offsets follow by enumeration. -/

def allCfgs : List Cfg := ((DB_CONFIG.map Prod.snd).flatten).map Prod.snd

theorem lookup_mem {β : Type} (l : List (String × β)) (k : String) (v : β)
    (h : l.lookup k = some v) : v ∈ l.map Prod.snd := by
  induction l with
  | nil => cases h
  | cons p rest ih =>
    obtain ⟨k1, v1⟩ := p
    rw [List.lookup] at h
    split at h
    · cases h
      exact List.mem_cons_self _ _
    · exact List.mem_cons_of_mem _ (ih h)

theorem findSome?_some {α β : Type} (f : α → Option β) (l : List α) (b : β)
    (h : l.findSome? f = some b) : ∃ a ∈ l, f a = some b := by
  induction l with
  | nil => cases h
  | cons x rest ih =>
    rcases hfx : f x with _ | b1
    · rw [List.findSome?_cons, hfx] at h
      obtain ⟨a, ha, hfa⟩ := ih h
      exact ⟨a, List.mem_cons_of_mem _ ha, hfa⟩
    · rw [List.findSome?_cons, hfx] at h
      cases h
      exact ⟨x, List.mem_cons_self _ _, hfx⟩

theorem lookup_bind_mem {sec tag : String} {cfg : Cfg}
    (h : (DB_CONFIG.lookup sec).bind (fun entries => entries.lookup tag) = some cfg) :
    cfg ∈ allCfgs := by
  rcases hlk : DB_CONFIG.lookup sec with _ | entries <;> rw [hlk] at h
  · cases h
  · simp only [Option.some_bind] at h
    have h1 : entries ∈ DB_CONFIG.map Prod.snd := lookup_mem _ _ _ hlk
    have h2 : cfg ∈ entries.map Prod.snd := lookup_mem _ _ _ h
    obtain ⟨p, hp, hpe⟩ := List.mem_map.mp h2
    exact List.mem_map.mpr ⟨p, List.mem_flatten.mpr ⟨entries, h1, hp⟩, hpe⟩

theorem findCfg_mem {secs : List String} {tag : String} {cfg : Cfg}
    (h : findCfg secs tag = some cfg) : cfg ∈ allCfgs := by
  unfold findCfg at h
  obtain ⟨sec, _, hf⟩ := findSome?_some _ _ _ h
  exact lookup_bind_mem hf

theorem resolveBoolTag_mem {tag : String} {cfg : Cfg}
    (h : resolveBoolTag tag = some cfg) : cfg ∈ allCfgs := by
  unfold resolveBoolTag at h
  split at h
  · split at h
    · exact lookup_bind_mem h
    · cases h
  · exact findCfg_mem h

theorem allCfgs_real_bytes : ∀ cfg ∈ allCfgs, cfg.ty = TagKind.REAL →
    byteOffset cfg ∈ ([204, 210, 214, 242, 246, 250, 254] : List ℕ) := by decide

theorem allCfgs_int_bytes : ∀ cfg ∈ allCfgs, cfg.ty = TagKind.INT →
    byteOffset cfg ∈ ([198, 200, 208, 218, 220, 222] : List ℕ) := by decide

theorem allCfgs_bool_bytes : ∀ cfg ∈ allCfgs, cfg.ty = TagKind.BOOL →
    byteOffset cfg ∈ ([202, 258, 260, 262] : List ℕ) := by decide

/-! On the simulator a rollback step over a resolvable tag always succeeds:
the neutral value it writes is read straight back. -/

theorem runM_rollbackStep_real (tag : String) (v : ℚ) {cfg : Cfg} (s : St)
    (hcfg : findCfg ["OPERATION", "INPUTS", "CUSTOM_SOLVENT"] tag = some cfg) :
    runM (rollbackStep simClient (.real tag v)) s =
      (.ok [], (dbReadSim (dbWriteSim s (byteOffset cfg) [0, 0, 0, 0])
        (byteOffset cfg) 4).2) := by
  unfold rollbackStep rollbackWrite
  rw [runM_tryCatch, runM_bind,
    runM_writeReal s hcfg (show encodeReal 0 = some [0, 0, 0, 0] from by decide)]
  dsimp only
  rw [runM_bind, runM_readReal _ hcfg]
  rw [show simClient.dbWrite = dbWriteSim from rfl, show simClient.dbRead = dbReadSim from rfl]
  rw [show (4 : ℕ) = ([0, 0, 0, 0] : List ℕ).length from rfl, dbReadSim_after_write]
  rw [show decodeReal [0, 0, 0, 0] = some 0 from by decide]
  dsimp only
  rw [if_neg (by decide : ¬ TOL < |(0 : ℚ)|)]
  rfl

theorem runM_rollbackStep_int (tag : String) (v : ℤ) {cfg : Cfg} (s : St)
    (hcfg : findCfg ["OPERATION", "INPUTS"] tag = some cfg) :
    runM (rollbackStep simClient (.int tag v)) s =
      (.ok [], (dbReadSim (dbWriteSim s (byteOffset cfg) [0, 0]) (byteOffset cfg) 2).2) := by
  unfold rollbackStep rollbackWrite
  rw [runM_tryCatch, runM_bind,
    runM_writeInt s hcfg (show encodeInt 0 = some [0, 0] from by decide)]
  dsimp only
  rw [runM_bind, runM_readInt _ hcfg]
  rw [show simClient.dbWrite = dbWriteSim from rfl, show simClient.dbRead = dbReadSim from rfl]
  rw [show (2 : ℕ) = ([0, 0] : List ℕ).length from rfl, dbReadSim_after_write]
  dsimp only
  rw [if_neg (by decide : ¬ decodeInt [0, 0] ≠ 0)]
  rfl

theorem runM_rollbackStep_bool (tag : String) (v : Bool) {cfg : Cfg} (s : St)
    (hcfg : resolveBoolTag tag = some cfg) :
    runM (rollbackStep simClient (.bool tag v)) s =
      (.ok [], (dbReadBitSim (dbWriteBitSim s (byteOffset cfg) (bitOffset cfg) false)
        (byteOffset cfg) (bitOffset cfg)).2) := by
  unfold rollbackStep rollbackWrite
  rw [runM_tryCatch, runM_bind, runM_writeBool false s hcfg]
  dsimp only
  rw [runM_bind, runM_readBool _ hcfg]
  rw [show simClient.dbWriteBit = dbWriteBitSim from rfl,
    show simClient.dbReadBit = dbReadBitSim from rfl]
  rw [dbReadBitSim_fst, dbWriteBitSim_obsBit_same]
  rfl

theorem runM_rollbackStep_str (value : String) (s : St) :
    runM (rollbackStep simClient (.str "s_CUSTOM_ORG_SOLVENT" value 16)) s =
      (.ok [], (dbReadSim (dbWriteSim s 224 (strData "" 16)) 224 2).2) := by
  have hcfg : (DB_CONFIG.lookup "INPUTS").bind
      (fun entries => entries.lookup "s_CUSTOM_ORG_SOLVENT") =
      some ⟨224, .STRING, some 16⟩ := by decide
  have hb : byteOffset (⟨224, .STRING, some 16⟩ : Cfg) = 224 := by decide
  unfold rollbackStep rollbackWrite
  rw [runM_tryCatch, runM_bind,
    runM_writeString s hcfg (by decide) (by decide) (by decide)]
  dsimp only
  rw [show simClient.dbWrite = dbWriteSim from rfl, hb]
  have hhead : (dbReadSim (dbWriteSim s 224 (strData "" 16)) 224 2).1 = [16, 0] := by
    rw [dbReadSim_fst]
    rw [show List.range 2 = [0, 1] from rfl]
    simp only [List.map_cons, List.map_nil]
    rw [dbWriteSim_obsByte_in s 224 _ (224 + 0) (by omega) (by decide),
      dbWriteSim_obsByte_in s 224 _ (224 + 1) (by omega) (by decide)]
    decide
  rw [runM_bind]
  rw [runM_readString_zero _ hcfg (by decide)
    (by rw [show simClient.dbRead = dbReadSim from rfl, hb, hhead]; rfl)]
  rw [show simClient.dbRead = dbReadSim from rfl, hb]
  dsimp only
  rw [if_neg (by decide : ¬ ("" : String) ≠ "")]
  rfl

theorem clearBit_zero (j : ℕ) : clearBit 0 j = 0 := by
  apply Nat.eq_of_testBit_eq
  intro k
  simp [clearBit, Nat.testBit_ldiff]

theorem dbWriteBitSim_obsByte_same (s : St) (b j : ℕ) (v : Bool) :
    obsByte (dbWriteBitSim s b j v).db b =
      (if v then obsByte s.db b ||| 2^j else clearBit (obsByte s.db b) j) := by
  unfold dbWriteBitSim
  dsimp only
  have hlen := growTo_length_ge s.db (b + 1)
  rw [obsByte_set_self _ _ _ (by omega)]
  rw [growTo_getD s.db (b + 1) b (by omega)]

theorem zeroList_getD (k : ℕ) : ([0, 0, 0, 0] : List ℕ).getD k 0 = 0 := by
  rcases k with _ | _ | _ | _ | k <;> rfl

theorem zeroList2_getD (k : ℕ) : ([0, 0] : List ℕ).getD k 0 = 0 := by
  rcases k with _ | _ | k <;> rfl

theorem strDataEmpty_getD (k : ℕ) (hk : 1 ≤ k) : (strData "" 16).getD k 0 = 0 := by
  rcases Nat.lt_or_ge k 18 with h | h
  · have hall : ∀ k, k < 18 → 1 ≤ k → (strData "" 16).getD k 0 = 0 := by decide
    exact hall k h hk
  · exact List.getD_eq_default _ _ (by rw [show (strData "" 16).length = 18 from by decide]; omega)

/-- Any valid rollback step writes only zero bytes, except at the string
header byte 224: bytes other than 224 that were zero stay zero. -/
theorem rollbackStep_keeps_zero (w : PWrite) (hw : ValidWrite w = true)
    (s : St) (i : ℕ) (hi : i ≠ 224) (h0 : obsByte s.db i = 0) :
    obsByte ((runM (rollbackStep simClient w) s).2).db i = 0 := by
  cases w with
  | real tag v =>
    obtain ⟨cfg, hcfg, -⟩ := ValidWrite_real hw
    rw [runM_rollbackStep_real tag v s hcfg]
    dsimp only
    rw [dbReadSim_snd_obsByte, dbWriteSim_obsByte]
    split
    · exact zeroList_getD _
    · exact h0
  | int tag v =>
    obtain ⟨cfg, hcfg, -⟩ := ValidWrite_int hw
    rw [runM_rollbackStep_int tag v s hcfg]
    dsimp only
    rw [dbReadSim_snd_obsByte, dbWriteSim_obsByte]
    split
    · exact zeroList2_getD _
    · exact h0
  | bool tag v =>
    obtain ⟨cfg, hcfg, -⟩ := ValidWrite_bool hw
    rw [runM_rollbackStep_bool tag v s hcfg]
    dsimp only
    rw [dbReadBitSim_snd_obsByte]
    by_cases hib : i = byteOffset cfg
    · subst hib
      rw [dbWriteBitSim_obsByte_same, if_neg (by simp), h0, clearBit_zero]
    · rw [dbWriteBitSim_obsByte_ne s _ _ false i hib]
      exact h0
  | str tag value ml =>
    obtain ⟨htag, hml⟩ := ValidWrite_str hw
    subst htag
    subst hml
    rw [runM_rollbackStep_str value s]
    dsimp only
    rw [dbReadSim_snd_obsByte, dbWriteSim_obsByte]
    split
    · next hin => exact strDataEmpty_getD _ (by omega)
    · exact h0

/-- Any valid rollback step leaves a false bit at a byte other than 224
false: byte writes there write zeros, and bit writes write `false` or leave
the bit alone. -/
theorem rollbackStep_keeps_bitfalse (w : PWrite) (hw : ValidWrite w = true)
    (s : St) (B J : ℕ) (hB : B ≠ 224) (h0 : obsBit s.db B J = false) :
    obsBit ((runM (rollbackStep simClient w) s).2).db B J = false := by
  cases w with
  | real tag v =>
    obtain ⟨cfg, hcfg, -⟩ := ValidWrite_real hw
    rw [runM_rollbackStep_real tag v s hcfg]
    dsimp only
    unfold obsBit
    rw [dbReadSim_snd_obsByte, dbWriteSim_obsByte]
    split
    · rw [zeroList_getD]
      exact Nat.zero_testBit J
    · exact h0
  | int tag v =>
    obtain ⟨cfg, hcfg, -⟩ := ValidWrite_int hw
    rw [runM_rollbackStep_int tag v s hcfg]
    dsimp only
    unfold obsBit
    rw [dbReadSim_snd_obsByte, dbWriteSim_obsByte]
    split
    · rw [zeroList2_getD]
      exact Nat.zero_testBit J
    · exact h0
  | bool tag v =>
    obtain ⟨cfg, hcfg, -⟩ := ValidWrite_bool hw
    rw [runM_rollbackStep_bool tag v s hcfg]
    dsimp only
    show obsBit (dbReadBitSim _ _ _).2.db B J = false
    unfold obsBit
    rw [dbReadBitSim_snd_obsByte]
    by_cases hsame : B = byteOffset cfg ∧ J = bitOffset cfg
    · obtain ⟨h1, h2⟩ := hsame
      subst h1
      subst h2
      exact dbWriteBitSim_obsBit_same s _ _ false
    · exact (dbWriteBitSim_obsBit_other s _ _ false B J hsame).trans h0
  | str tag value ml =>
    obtain ⟨htag, hml⟩ := ValidWrite_str hw
    subst htag
    subst hml
    rw [runM_rollbackStep_str value s]
    dsimp only
    unfold obsBit
    rw [dbReadSim_snd_obsByte, dbWriteSim_obsByte]
    split
    · next hin =>
      rw [strDataEmpty_getD _ (by omega)]
      exact Nat.zero_testBit J
    · exact h0

/-- A valid rollback step leaves its own write reading neutral. -/
theorem rollbackStep_establishes (w : PWrite) (hw : ValidWrite w = true) (s : St) :
    NeutralObs ((runM (rollbackStep simClient w) s).2) w := by
  cases w with
  | real tag v =>
    obtain ⟨cfg, hcfg, -⟩ := ValidWrite_real hw
    intro cfg' hcfg'
    rw [hcfg] at hcfg'
    obtain rfl : cfg = cfg' := Option.some.inj hcfg'
    intro k hk
    rw [runM_rollbackStep_real tag v s hcfg]
    dsimp only
    rw [dbReadSim_snd_obsByte,
      dbWriteSim_obsByte_in s _ _ _ (by omega) (by simp; omega)]
    exact zeroList_getD _
  | int tag v =>
    obtain ⟨cfg, hcfg, -⟩ := ValidWrite_int hw
    intro cfg' hcfg'
    rw [hcfg] at hcfg'
    obtain rfl : cfg = cfg' := Option.some.inj hcfg'
    intro k hk
    rw [runM_rollbackStep_int tag v s hcfg]
    dsimp only
    rw [dbReadSim_snd_obsByte,
      dbWriteSim_obsByte_in s _ _ _ (by omega) (by simp; omega)]
    exact zeroList2_getD _
  | bool tag v =>
    obtain ⟨cfg, hcfg, -⟩ := ValidWrite_bool hw
    intro cfg' hcfg'
    rw [hcfg] at hcfg'
    obtain rfl : cfg = cfg' := Option.some.inj hcfg'
    rw [runM_rollbackStep_bool tag v s hcfg]
    dsimp only
    show obsBit (dbReadBitSim _ _ _).2.db _ _ = false
    unfold obsBit
    rw [dbReadBitSim_snd_obsByte]
    exact dbWriteBitSim_obsBit_same s _ _ false
  | str tag value ml =>
    obtain ⟨htag, hml⟩ := ValidWrite_str hw
    subst htag
    subst hml
    rw [runM_rollbackStep_str value s]
    show obsByte (dbReadSim _ _ _).2.db 225 = 0
    rw [dbReadSim_snd_obsByte,
      dbWriteSim_obsByte_in s 224 _ 225 (by omega) (by decide)]
    decide

theorem rollbackAll_keeps_zero (ws : List PWrite)
    (hv : ∀ w ∈ ws, ValidWrite w = true) (s : St) (i : ℕ) (hi : i ≠ 224)
    (h0 : obsByte s.db i = 0) :
    obsByte ((runM (rollbackAll simClient ws) s).2).db i = 0 := by
  induction ws generalizing s with
  | nil => exact h0
  | cons w rest ih =>
    show obsByte ((runM (rollbackStep simClient w >>= fun e =>
      rollbackAll simClient rest >>= fun es => pure (e ++ es)) s).2).db i = 0
    rw [runM_bind]
    rcases h1 : runM (rollbackStep simClient w) s with ⟨r1, s1⟩
    have hz1 : obsByte s1.db i = 0 := by
      have := rollbackStep_keeps_zero w (hv w (by simp)) s i hi h0
      rw [h1] at this
      exact this
    cases r1 with
    | error e => exact hz1
    | ok a =>
      dsimp only
      rw [runM_bind]
      rcases h2 : runM (rollbackAll simClient rest) s1 with ⟨r2, s2⟩
      have hz2 : obsByte s2.db i = 0 := by
        have := ih (fun w' hw' => hv w' (by simp [hw'])) s1 hz1
        rw [h2] at this
        exact this
      cases r2 with
      | error e => exact hz2
      | ok es => exact hz2

theorem rollbackAll_keeps_bitfalse (ws : List PWrite)
    (hv : ∀ w ∈ ws, ValidWrite w = true) (s : St) (B J : ℕ) (hB : B ≠ 224)
    (h0 : obsBit s.db B J = false) :
    obsBit ((runM (rollbackAll simClient ws) s).2).db B J = false := by
  induction ws generalizing s with
  | nil => exact h0
  | cons w rest ih =>
    show obsBit ((runM (rollbackStep simClient w >>= fun e =>
      rollbackAll simClient rest >>= fun es => pure (e ++ es)) s).2).db B J = false
    rw [runM_bind]
    rcases h1 : runM (rollbackStep simClient w) s with ⟨r1, s1⟩
    have hz1 : obsBit s1.db B J = false := by
      have := rollbackStep_keeps_bitfalse w (hv w (by simp)) s B J hB h0
      rw [h1] at this
      exact this
    cases r1 with
    | error e => exact hz1
    | ok a =>
      dsimp only
      rw [runM_bind]
      rcases h2 : runM (rollbackAll simClient rest) s1 with ⟨r2, s2⟩
      have hz2 : obsBit s2.db B J = false := by
        have := ih (fun w' hw' => hv w' (by simp [hw'])) s1 hz1
        rw [h2] at this
        exact this
      cases r2 with
      | error e => exact hz2
      | ok es => exact hz2

/-- After the whole rollback loop, every valid queued write observes
neutral. -/
theorem rollbackAll_neutral (ws : List PWrite)
    (hv : ∀ w ∈ ws, ValidWrite w = true) (s : St) :
    ∀ w ∈ ws, NeutralObs ((runM (rollbackAll simClient ws) s).2) w := by
  induction ws generalizing s with
  | nil =>
    intro w hw
    cases hw
  | cons w0 rest ih =>
    intro w hw
    obtain ⟨r0, s0, h0eq⟩ := rollbackStep_ok simClient w0 s
    obtain ⟨r2, s2, h2eq⟩ := rollbackAll_ok simClient rest s0
    show NeutralObs ((runM (rollbackStep simClient w0 >>= fun e =>
      rollbackAll simClient rest >>= fun es => pure (e ++ es)) s).2) w
    rw [runM_bind, h0eq]
    dsimp only
    rw [runM_bind, h2eq]
    dsimp only
    have hvrest : ∀ w' ∈ rest, ValidWrite w' = true := fun w' h' => hv w' (by simp [h'])
    rcases List.mem_cons.mp hw with rfl | hwrest
    · have hest : NeutralObs s0 w := by
        have := rollbackStep_establishes w (hv w (by simp)) s
        rw [h0eq] at this
        exact this
      cases w with
      | real tag v =>
        intro cfg hcfg k hk
        obtain ⟨cfgv, hcfgv, hty⟩ := ValidWrite_real (hv (PWrite.real tag v) (by simp))
        rw [hcfgv] at hcfg
        obtain rfl : cfgv = cfg := Option.some.inj hcfg
        have hbmem := allCfgs_real_bytes cfgv (findCfg_mem hcfgv) hty
        have hb : byteOffset cfgv + k ≠ 224 := by
          simp only [List.mem_cons, List.not_mem_nil, or_false] at hbmem
          omega
        have := rollbackAll_keeps_zero rest hvrest s0 (byteOffset cfgv + k) hb
          (hest cfgv hcfgv k hk)
        rw [h2eq] at this
        exact this
      | int tag v =>
        intro cfg hcfg k hk
        obtain ⟨cfgv, hcfgv, hty⟩ := ValidWrite_int (hv (PWrite.int tag v) (by simp))
        rw [hcfgv] at hcfg
        obtain rfl : cfgv = cfg := Option.some.inj hcfg
        have hbmem := allCfgs_int_bytes cfgv (findCfg_mem hcfgv) hty
        have hb : byteOffset cfgv + k ≠ 224 := by
          simp only [List.mem_cons, List.not_mem_nil, or_false] at hbmem
          omega
        have := rollbackAll_keeps_zero rest hvrest s0 (byteOffset cfgv + k) hb
          (hest cfgv hcfgv k hk)
        rw [h2eq] at this
        exact this
      | bool tag v =>
        intro cfg hcfg
        obtain ⟨cfgv, hcfgv, hty⟩ := ValidWrite_bool (hv (PWrite.bool tag v) (by simp))
        rw [hcfgv] at hcfg
        obtain rfl : cfgv = cfg := Option.some.inj hcfg
        have hbmem := allCfgs_bool_bytes cfgv (resolveBoolTag_mem hcfgv) hty
        have hb : byteOffset cfgv ≠ 224 := by
          simp only [List.mem_cons, List.not_mem_nil, or_false] at hbmem
          omega
        have := rollbackAll_keeps_bitfalse rest hvrest s0 (byteOffset cfgv)
          (bitOffset cfgv) hb (hest cfgv hcfgv)
        rw [h2eq] at this
        exact this
      | str tag value ml =>
        have := rollbackAll_keeps_zero rest hvrest s0 225 (by omega) hest
        rw [h2eq] at this
        exact this
    · have := ih hvrest s0 w hwrest
      rw [h2eq] at this
      exact this

/-- Observation-level neutrality gives the neutral read-back values. -/
theorem neutralObs_reads (s : St) (w : PWrite) (hw : ValidWrite w = true)
    (h : NeutralObs s w) : ReadsNeutral s w := by
  cases w with
  | real tag v =>
    obtain ⟨cfg, hcfg, -⟩ := ValidWrite_real hw
    have hspan := h cfg hcfg
    show (runM (readReal simClient tag) s).1 = .ok 0
    rw [runM_readReal s hcfg]
    dsimp only
    rw [show simClient.dbRead = dbReadSim from rfl]
    have hbytes : (dbReadSim s (byteOffset cfg) 4).1 = [0, 0, 0, 0] := by
      rw [dbReadSim_fst, show List.range 4 = [0, 1, 2, 3] from rfl]
      simp only [List.map_cons, List.map_nil]
      rw [hspan 0 (by omega), hspan 1 (by omega), hspan 2 (by omega),
        hspan 3 (by omega)]
    rw [hbytes, show decodeReal [0, 0, 0, 0] = some 0 from by decide]
  | int tag v =>
    obtain ⟨cfg, hcfg, -⟩ := ValidWrite_int hw
    have hspan := h cfg hcfg
    show (runM (readInt simClient tag) s).1 = .ok 0
    rw [runM_readInt s hcfg]
    dsimp only
    rw [show simClient.dbRead = dbReadSim from rfl]
    have hbytes : (dbReadSim s (byteOffset cfg) 2).1 = [0, 0] := by
      rw [dbReadSim_fst, show List.range 2 = [0, 1] from rfl]
      simp only [List.map_cons, List.map_nil]
      rw [hspan 0 (by omega), hspan 1 (by omega)]
    rw [hbytes, show decodeInt [0, 0] = 0 from by decide]
  | bool tag v =>
    obtain ⟨cfg, hcfg, -⟩ := ValidWrite_bool hw
    show (runM (readBool simClient tag) s).1 = .ok false
    rw [runM_readBool s hcfg]
    dsimp only
    rw [show simClient.dbReadBit = dbReadBitSim from rfl, dbReadBitSim_fst,
      h cfg hcfg]
  | str tag value ml =>
    obtain ⟨htag, hml⟩ := ValidWrite_str hw
    subst htag
    subst hml
    have hcfg : (DB_CONFIG.lookup "INPUTS").bind
        (fun entries => entries.lookup "s_CUSTOM_ORG_SOLVENT") =
        some ⟨224, .STRING, some 16⟩ := by decide
    have hb : byteOffset (⟨224, .STRING, some 16⟩ : Cfg) = 224 := by decide
    show (runM (readString simClient "s_CUSTOM_ORG_SOLVENT") s).1 = .ok ""
    rw [runM_readString_zero s hcfg (by decide) ?_]
    rw [show simClient.dbRead = dbReadSim from rfl, hb, dbReadSim_fst,
      show List.range 2 = [0, 1] from rfl]
    simp only [List.map_cons, List.map_nil]
    show ([obsByte s.db (224 + 0), obsByte s.db (224 + 1)].getD 1 0) = 0
    show obsByte s.db 225 = 0
    exact h

theorem commit_handler_run (T : Transport) (ws : List PWrite) (e : Err) (s : St) :
    ∃ r sr, runM (rollbackAll T ws) s = (.ok r, sr) ∧
      runM ((do
        let rbErrs ← rollbackAll T ws
        if rbErrs ≠ [] then throw (.txRollbackFailed e rbErrs)
        else throw (.txRolledBack e) : M Tx)) s =
        (.error (if r ≠ [] then .txRollbackFailed e r else .txRolledBack e), sr) := by
  obtain ⟨r, sr, hr⟩ := rollbackAll_ok T ws s
  refine ⟨r, sr, hr, ?_⟩
  rw [runM_bind, hr]
  dsimp only
  by_cases hne : r ≠ []
  · rw [if_pos hne, runM_throw, if_pos hne]
  · rw [if_neg hne, runM_throw, if_neg hne]

/-- A transport double for the claim's engineered-failure scenario: byte
writes starting at 208 (the `i_FRR` span) are silently dropped, though still
traced; everything else behaves exactly like the simulator. -/
def faultyFrr : Transport :=
  { dbWrite := fun s start data =>
      if start = 208 then { db := s.db, trace := s.trace ++ [.wspan start data.length] }
      else dbWriteSim s start data,
    dbRead := dbReadSim,
    dbWriteBit := dbWriteBitSim,
    dbReadBit := dbReadBitSim }

/-- C1: transaction atomicity with rollback to neutral values.  (1) On the
simulator transport, whenever `commit()` raises, the raised error is either
`txRolledBack` carrying the original error or `txRollbackFailed` carrying
the original error plus the non-empty list of rollback failures, and every
queued write whose tag validly resolves in the registry (with its kind)
reads back its kind's neutral value (`0.0`, `0`, `False`, `''`) in the
post-commit state.  (2) In the claim's concrete scenario — a transaction
queuing `{r_TFR = 1.0, i_FRR = 5}` against a transport whose `i_FRR` writes
are dropped so the second write fails verification — commit raises
`txRolledBack` carrying exactly that mismatch and `r_TFR` then reads back
`0.0`, not `1.0`. -/
theorem C1_rollback_atomicity :
    (∀ (tx : Tx) (s : St), (∀ w ∈ tx.writes, ValidWrite w = true) →
      ∀ err : Err, (runM (txCommit simClient tx) s).1 = .error err →
        (∃ e₀, err = .txRolledBack e₀ ∨
          ∃ rbs, rbs ≠ [] ∧ err = .txRollbackFailed e₀ rbs) ∧
        ∀ w ∈ tx.writes, ReadsNeutral (runM (txCommit simClient tx) s).2 w) ∧
    ((runM (txCommit faultyFrr ⟨[.real "r_TFR" 1, .int "i_FRR" 5], false⟩) initSt).1 =
      .error (.txRolledBack (.verify [.int "i_FRR" 5 0])) ∧
     (runM (readReal faultyFrr "r_TFR")
        (runM (txCommit faultyFrr ⟨[.real "r_TFR" 1, .int "i_FRR" 5], false⟩)
          initSt).2).1 = .ok 0) := by
  constructor
  · intro tx s hv err herr
    unfold txCommit at herr ⊢
    by_cases hcom : tx.committed = true
    · rw [if_pos hcom] at herr
      simp [runM_pure] at herr
    · rw [if_neg hcom] at herr ⊢
      rw [runM_tryCatch] at herr ⊢
      rcases hbody : runM ((do
          doWrites simClient tx.writes
          let errors ← verifyWrites simClient tx.writes
          if errors ≠ [] then throw (.verify errors)
          else pure { tx with committed := true } : M Tx)) s with ⟨rb, sb⟩
      rw [hbody] at herr ⊢
      cases rb with
      | ok a => simp at herr
      | error e₀ =>
        dsimp only at herr ⊢
        obtain ⟨r, sr, hra, hh⟩ := commit_handler_run simClient tx.writes e₀ sb
        rw [hh] at herr ⊢
        dsimp only at herr ⊢
        rw [Except.error.injEq] at herr
        constructor
        · refine ⟨e₀, ?_⟩
          by_cases hne : r ≠ []
          · exact Or.inr ⟨r, hne, by rw [← herr, if_pos hne]⟩
          · exact Or.inl (by rw [← herr, if_neg hne])
        · intro w hw
          apply neutralObs_reads _ _ (hv w hw)
          have := rollbackAll_neutral tx.writes hv sb w hw
          rw [hra] at this
          exact this
  · exact ⟨by decide, by decide⟩

/-- C1 witness: a transaction queuing `{r_TFR, i_FRR}` on the plain
simulator whose first write's binary32 rounding error exceeds the
verification tolerance: commit raises `txRolledBack` carrying the original
mismatch and `r_TFR` reads back exactly `0.0`. -/
theorem C1_witness :
    (∀ w ∈ ([.real "r_TFR" ((63999939 : ℚ)/64), .int "i_FRR" 5] : List PWrite),
      ValidWrite w = true) ∧
    (runM (txCommit simClient ⟨[.real "r_TFR" ((63999939 : ℚ)/64), .int "i_FRR" 5],
        false⟩) initSt).1 =
      .error (.txRolledBack (.verify
        [.real "r_TFR" ((63999939 : ℚ)/64) ((15999985 : ℚ)/16)])) ∧
    ReadsNeutral (runM (txCommit simClient ⟨[.real "r_TFR" ((63999939 : ℚ)/64),
        .int "i_FRR" 5], false⟩) initSt).2
      (.real "r_TFR" ((63999939 : ℚ)/64)) := by
  refine ⟨by decide, by decide, ?_⟩
  exact ((C1_rollback_atomicity.1
      ⟨[.real "r_TFR" ((63999939 : ℚ)/64), .int "i_FRR" 5], false⟩ initSt (by decide)
      (.txRolledBack (.verify
        [.real "r_TFR" ((63999939 : ℚ)/64) ((15999985 : ℚ)/16)]))
      (by decide)).2
    (.real "r_TFR" ((63999939 : ℚ)/64)) (by simp))

end PlcTool
